import Mathlib

/-!
Verification of the `@uistate/router` SPA router (router.js).

Shallow embedding conventions:
* JS strings are modelled as `List Char`.
* JS `null`/absent string fields are modelled with `Option`.
* Exceptions are modelled with `Except` (a thrown `URIError` from
  `decodeURIComponent` becomes `Except.error`).
* The regular expression produced by `compilePattern` is modelled
  semantically: the pattern is an alternating sequence of literal pieces
  (the source escapes every regex metacharacter in them, so they match
  exactly their own characters) and `([^/]+)` capture groups; matching is
  anchored at both ends and capture groups are greedy with backtracking,
  which is exactly the behaviour of the anchored JS regex the source builds.
-/

set_option autoImplicit false

deriving instance DecidableEq for Except

namespace Router

/-! ### Percent decoding: a model of JavaScript `decodeURIComponent`

`decodeURIComponent` percent-decodes `%XX` escapes; the decoded octets must
form valid (shortest-form) UTF-8, otherwise a `URIError` is thrown.
`none` models the thrown `URIError`. -/

/-- Value of a hex digit, `none` when the character is not a hex digit. -/
def hexVal? (c : Char) : Option Nat :=
  if '0' ≤ c ∧ c ≤ '9' then some (c.toNat - '0'.toNat)
  else if 'a' ≤ c ∧ c ≤ 'f' then some (c.toNat - 'a'.toNat + 10)
  else if 'A' ≤ c ∧ c ≤ 'F' then some (c.toNat - 'A'.toNat + 10)
  else none

/-- Read a `%XY` escape from the front of the list, returning the octet and
the rest of the input; `none` when the escape is malformed. -/
def readByte? : List Char → Option (Nat × List Char)
  | '%' :: h1 :: h2 :: rest =>
    match hexVal? h1, hexVal? h2 with
    | some a, some b => some (a * 16 + b, rest)
    | _, _ => none
  | _ => none

/-- Read a UTF-8 continuation octet written as a `%XY` escape, returning its
low six bits. -/
def readCont? (cs : List Char) : Option (Nat × List Char) :=
  match readByte? cs with
  | some (b, rest) => if 0x80 ≤ b ∧ b ≤ 0xBF then some (b % 0x40, rest) else none
  | none => none

/-- Decode one escape sequence whose lead octet `b` has already been read;
returns the code point and the remaining input.  Rejects stray continuation
octets, overlong encodings, surrogates and code points above `0x10FFFF`,
as `decodeURIComponent` does. -/
def decodeEscSeq? (b : Nat) (cs : List Char) : Option (Nat × List Char) :=
  if b < 0x80 then some (b, cs)
  else if b < 0xC2 then none
  else if b < 0xE0 then
    match readCont? cs with
    | some (c1, rest) => some ((b - 0xC0) * 0x40 + c1, rest)
    | none => none
  else if b < 0xF0 then
    match readCont? cs with
    | some (c1, rest1) =>
      match readCont? rest1 with
      | some (c2, rest2) =>
        let v := (b - 0xE0) * 0x1000 + c1 * 0x40 + c2
        if 0x800 ≤ v ∧ ¬(0xD800 ≤ v ∧ v ≤ 0xDFFF) then some (v, rest2) else none
      | none => none
    | none => none
  else if b < 0xF5 then
    match readCont? cs with
    | some (c1, rest1) =>
      match readCont? rest1 with
      | some (c2, rest2) =>
        match readCont? rest2 with
        | some (c3, rest3) =>
          let v := (b - 0xF0) * 0x40000 + c1 * 0x1000 + c2 * 0x40 + c3
          if 0x10000 ≤ v ∧ v ≤ 0x10FFFF then some (v, rest3) else none
        | none => none
      | none => none
    | none => none
  else none

/-- Fuelled worker for `decodeURIComponent?`; the fuel only bounds the
number of loop iterations (each iteration consumes at least one input
character, so `cs.length` fuel is always enough). -/
def decodeURIAux : Nat → List Char → Option (List Char)
  | _, [] => some []
  | 0, _ :: _ => none
  | fuel + 1, '%' :: cs =>
    match readByte? ('%' :: cs) with
    | some (b, rest) =>
      match decodeEscSeq? b rest with
      | some (v, rest2) =>
        match decodeURIAux fuel rest2 with
        | some out => some (Char.ofNat v :: out)
        | none => none
      | none => none
    | none => none
  | fuel + 1, c :: cs =>
    match decodeURIAux fuel cs with
    | some out => some (c :: out)
    | none => none

/-- Model of `decodeURIComponent`; `none` models a thrown `URIError`. -/
def decodeURIComponent? (cs : List Char) : Option (List Char) :=
  decodeURIAux cs.length cs

/-! ### Pattern compiler (`compilePattern`) -/

/-- First character of a `:param` identifier: `[a-zA-Z_]`. -/
def isIdentStart (c : Char) : Bool :=
  ('a' ≤ c ∧ c ≤ 'z') ∨ ('A' ≤ c ∧ c ≤ 'Z') ∨ c = '_'

/-- Subsequent characters of a `:param` identifier: `[a-zA-Z0-9_]`. -/
def isIdentChar (c : Char) : Bool :=
  isIdentStart c ∨ ('0' ≤ c ∧ c ≤ '9')

/-- Worker for `splitParams`, structurally recursive on a fuel bound so
that it evaluates inside the kernel; every step consumes at least one
input character, so `cs.length + 1` fuel always suffices and the
fuel-exhausted branch is unreachable from the wrapper. -/
def splitParamsF : Nat → List Char → List Char → List (List Char)
  | 0, acc, cs => [acc.reverse ++ cs]
  | _ + 1, acc, [] => [acc.reverse]
  | _ + 1, acc, [':'] => [(acc.reverse) ++ [':']]
  | fuel + 1, acc, ':' :: c :: rest =>
    if isIdentStart c then
      acc.reverse :: (c :: rest.takeWhile isIdentChar) ::
        splitParamsF fuel [] (rest.dropWhile isIdentChar)
    else
      splitParamsF fuel (':' :: acc) (c :: rest)
  | fuel + 1, acc, c :: rest => splitParamsF fuel (c :: acc) rest

/-- Model of `pattern.split(/:([a-zA-Z_][a-zA-Z0-9_]*)/)`: with a capture
group in the separator, JS `split` returns the literal chunks interleaved
with the captured parameter names, so the result alternates
literal, name, literal, name, …, literal (odd indices are names).
`acc` holds the reversed characters of the literal chunk being scanned;
the scan finds the leftmost `:identifier` token, takes its maximal
identifier greedily, and resumes after it. -/
def splitParams (acc cs : List Char) : List (List Char) :=
  splitParamsF (cs.length + 1) acc cs

/-- One piece of the compiled regex `'^' + … + '$'`: an escaped literal
chunk, or a `([^/]+)` capture group produced for a `:param` token. -/
inductive Piece where
  | lit (s : List Char)
  | param
  deriving DecidableEq, Repr

/-- The compiled route pattern: the semantic content of the
`{ regex, paramNames }` record returned by `compilePattern`. -/
structure Pattern where
  pieces : List Piece
  paramNames : List (List Char)
  deriving DecidableEq, Repr

/-- Build the regex pieces from the split parts: parts at odd indices (the
captured parameter names) become `([^/]+)` capture groups, parts at even
indices become literal chunks; the index parity is tracked by the `odd`
flag since the parts strictly alternate. -/
def buildPieces : Bool → List (List Char) → List Piece
  | _, [] => []
  | false, part :: rest => Piece.lit part :: buildPieces true rest
  | true, _ :: rest => Piece.param :: buildPieces false rest

/-- Collect the parameter names: the parts at odd indices, in order. -/
def buildNames : Bool → List (List Char) → List (List Char)
  | _, [] => []
  | false, _ :: rest => buildNames true rest
  | true, part :: rest => part :: buildNames false rest

/-- Model of `compilePattern`: split on `:param` tokens; odd-indexed parts
become `([^/]+)` capture groups and are recorded in `paramNames`;
even-indexed parts are literal chunks (the source escapes every regex
metacharacter in them, so semantically they match exactly themselves). -/
def compilePattern (pattern : List Char) : Pattern :=
  let parts := splitParams [] pattern
  { pieces := buildPieces false parts
    paramNames := buildNames false parts }

/-- Worker for `paramTokens`, structurally recursive on a fuel bound
(every step consumes at least one character, so `cs.length + 1` fuel
always suffices). -/
def paramTokensF : Nat → List Char → List (List Char)
  | 0, _ => []
  | _ + 1, [] => []
  | fuel + 1, ':' :: c :: rest =>
    if isIdentStart c then
      (c :: rest.takeWhile isIdentChar) :: paramTokensF fuel (rest.dropWhile isIdentChar)
    else paramTokensF fuel (c :: rest)
  | fuel + 1, _ :: rest => paramTokensF fuel rest

/-- The parameter tokens of a template as the claim words them: every
occurrence of a colon followed by an ASCII letter or underscore and then
letters, digits or underscores, collected left to right.  This is a
spec-side restatement, used only to check `compilePattern` against the
claim's wording. -/
def paramTokens (cs : List Char) : List (List Char) :=
  paramTokensF (cs.length + 1) cs

/-- The number of `([^/]+)` capture groups in a compiled piece list. -/
def countParams : List Piece → Nat
  | [] => 0
  | Piece.param :: ps => countParams ps + 1
  | Piece.lit _ :: ps => countParams ps

/-- Strip a literal off the front of the input: `some rest` when `s` is an
initial segment of `cs`. -/
def stripLit? : List Char → List Char → Option (List Char)
  | [], cs => some cs
  | _ :: _, [] => none
  | a :: s, b :: cs => if a = b then stripLit? s cs else none

/-- Backtracking loop for one `([^/]+)` group: `g k` is "match the rest of
the pieces against the input after a capture of `k` characters"; try the
longest capture first (`n` characters, all non-slash when `n` is at most
the leading non-slash run), then fall back to shorter nonempty captures. -/
def paramLoop (g : Nat → Option (List (List Char))) (cs : List Char) :
    Nat → Option (List (List Char))
  | 0 => none
  | n + 1 =>
    match g (n + 1) with
    | some caps => some (cs.take (n + 1) :: caps)
    | none => paramLoop g cs n

/-- Anchored matching of a piece list against the input, with the greedy,
backtracking semantics of the JS regex `^…$`: a `lit` piece must match
literally, a `param` piece (`([^/]+)`) captures one or more non-slash
characters, trying longer captures first.  Returns the list of captured
substrings.  The fuel decreases at every piece; `pieces.length + 1` is
always sufficient (see `regexMatch`). -/
def matchPieces : Nat → List Piece → List Char → Option (List (List Char))
  | 0, _, _ => none
  | _ + 1, [], cs => if cs = [] then some [] else none
  | fuel + 1, Piece.lit s :: ps, cs =>
    match stripLit? s cs with
    | some rest => matchPieces fuel ps rest
    | none => none
  | fuel + 1, Piece.param :: ps, cs =>
    paramLoop (fun k => matchPieces fuel ps (cs.drop k)) cs
      (cs.takeWhile (fun c => ¬(c = '/'))).length

/-- Model of `p.match(route.regex)` for the anchored regex built by
`compilePattern`: `some caps` is a successful whole-string match with the
listed group captures, `none` is a failed match. -/
def regexMatch (pat : Pattern) (cs : List Char) : Option (List (List Char)) :=
  matchPieces (pat.pieces.length + 1) pat.pieces cs

/-! ### Path normalization (`normalizePath`) -/

/-- Model of `normalizePath`: empty input gives `/`; a leading slash is
prefixed when missing; an exact `/index.html` collapses to `/`; exactly one
trailing slash is stripped unless the path is the root. -/
def normalizePath (p : List Char) : List Char :=
  if p = [] then ['/']
  else
    let p1 := if p.head? = some '/' then p else '/' :: p
    if p1 = "/index.html".toList then ['/']
    else if 1 < p1.length ∧ p1.getLast? = some '/' then p1.dropLast
    else p1

/-! ### Route resolution (`resolve`) -/

/-- A configured route: `path` template and `view` identifier.  The view
component itself is an opaque capability and is modelled in the navigation
engine by a per-navigation boot oracle. -/
structure RouteDef where
  path : List Char
  view : List Char
  deriving DecidableEq, Repr

/-- A route together with its compiled pattern (the router pre-compiles all
routes at construction time). -/
structure CompiledRoute where
  route : RouteDef
  pat : Pattern
  deriving DecidableEq, Repr

/-- Compile a route list, as `createRouter` does. -/
def compileRoutes (routes : List RouteDef) : List CompiledRoute :=
  routes.map fun r => { route := r, pat := compilePattern r.path }

/-- The result of a successful resolution. -/
structure Resolved where
  path : List Char
  view : List Char
  params : List (List Char × List Char)
  deriving DecidableEq, Repr

/-- Decode the captured segments with `decodeURIComponent`, pairing them
with their parameter names; `none` models a thrown `URIError`. -/
def decodeParams : List (List Char) → List (List Char) →
    Option (List (List Char × List Char))
  | [], _ => some []
  | _ :: _, [] => some []
  | n :: ns, c :: cs =>
    match decodeURIComponent? c with
    | some v =>
      match decodeParams ns cs with
      | some ps => some ((n, v) :: ps)
      | none => none
    | none => none

/-- The matching loop of `resolve` over the compiled route list;
`Except.error ()` models the `URIError` thrown by `decodeURIComponent`
escaping from `resolve`. -/
def resolveList (fallback : Option RouteDef) :
    List CompiledRoute → List Char → Except Unit (Option Resolved)
  | [], _ =>
    match fallback with
    | some f => Except.ok (some { path := f.path, view := f.view, params := [] })
    | none => Except.ok none
  | r :: rs, p =>
    match regexMatch r.pat p with
    | some caps =>
      match decodeParams r.pat.paramNames caps with
      | some params =>
        Except.ok (some { path := r.route.path, view := r.route.view, params := params })
      | none => Except.error ()
    | none => resolveList fallback rs p

/-- Model of `resolve(pathname)`: normalize, then test the compiled routes
in registration order; on the first match decode every captured segment;
fall through to the fallback; otherwise `ok none` ("no route", not an
error).  `Except.error ()` models a thrown `URIError`. -/
def resolve (compiled : List CompiledRoute) (fallback : Option RouteDef)
    (pathname : List Char) : Except Unit (Option Resolved) :=
  resolveList fallback compiled (normalizePath pathname)

/-! ### Base path handling (`stripBase` / `withBase`) -/

/-- Model of `stripBase`: when a base path is configured and the pathname
starts with it, drop it (an empty remainder becomes `/`, and a slash is
prefixed when missing). -/
def stripBase (basePath p : List Char) : List Char :=
  if basePath = [] then p
  else
    match stripLit? basePath p with
    | some restAfter =>
      let rest := if restAfter = [] then ['/'] else restAfter
      if rest.head? = some '/' then rest else '/' :: rest
    | none => p

/-- Model of `withBase`: prefix the configured base path. -/
def withBase (basePath p : List Char) : List Char :=
  if basePath = [] then p
  else if p = ['/'] then basePath
  else basePath ++ (if p.head? = some '/' then [] else ['/']) ++ p

/-! ### Query strings: a model of `URLSearchParams`

A parameter list is an ordered list of (name, value) pairs, both already
decoded.  `spSet` replaces the value of the first entry with the given
name in place and deletes the other entries with that name (appending when
the name is absent); `spDelete` removes every entry with the name — the
semantics of `URLSearchParams.set` / `URLSearchParams.delete`. -/

/-- `URLSearchParams.delete`. -/
def spDelete (k : List Char) : List (List Char × List Char) → List (List Char × List Char)
  | [] => []
  | e :: rest => if e.1 = k then spDelete k rest else e :: spDelete k rest

/-- `URLSearchParams.set`. -/
def spSet (k v : List Char) : List (List Char × List Char) → List (List Char × List Char)
  | [] => [(k, v)]
  | e :: rest => if e.1 = k then (k, v) :: spDelete k rest else e :: spSet k v rest

/-- Lenient percent-plus decoding used when parsing query strings
(`application/x-www-form-urlencoded`): `+` is a space, a valid `%XX`
escape sequence is decoded, an invalid escape is kept literally, and an
invalid UTF-8 escape sequence yields U+FFFD (the recovery granularity of
the replacement character is approximated: one replacement per bad lead
octet; the claims only exercise ASCII queries). -/
def formDecodeAux : Nat → List Char → List Char
  | _, [] => []
  | 0, l => l
  | fuel + 1, '%' :: cs =>
    match readByte? ('%' :: cs) with
    | some (b, rest) =>
      match decodeEscSeq? b rest with
      | some (v, rest2) => Char.ofNat v :: formDecodeAux fuel rest2
      | none => Char.ofNat 0xFFFD :: formDecodeAux fuel rest
    | none => '%' :: formDecodeAux fuel cs
  | fuel + 1, '+' :: cs => ' ' :: formDecodeAux fuel cs
  | fuel + 1, c :: cs => c :: formDecodeAux fuel cs

/-- Lenient form decoding (never throws). -/
def formDecode (cs : List Char) : List Char := formDecodeAux cs.length cs

/-- Split a list on a separator character (empty chunks preserved). -/
def splitOn (sep : Char) : List Char → List (List Char)
  | [] => [[]]
  | c :: cs =>
    let r := splitOn sep cs
    if c = sep then [] :: r
    else
      match r with
      | [] => [[c]]
      | h :: t => (c :: h) :: t

/-- Parse one `name=value` segment (no `=` means an empty value). -/
def parsePair (seg : List Char) : List Char × List Char :=
  let name := seg.takeWhile (fun c => decide (¬c = '='))
  let rest := seg.dropWhile (fun c => decide (¬c = '='))
  (formDecode name, formDecode (rest.drop 1))

/-- Parse a query string (without its leading `?`) into an ordered pair
list, as the `URLSearchParams` constructor does: split on `&`, skip empty
segments, split each segment at the first `=`, decode both halves. -/
def parseSearch (s : List Char) : List (List Char × List Char) :=
  ((splitOn '&' s).filter (fun seg => decide (¬seg = []))).map parsePair

/-- Drop a single leading `?`. -/
def dropQM (s : List Char) : List Char :=
  if s.head? = some '?' then s.drop 1 else s

/-- JS object insertion semantics: overwrite in place when the key exists,
append otherwise. -/
def assocSet {V : Type} (l : List (List Char × V)) (k : List Char) (v : V) :
    List (List Char × V) :=
  if l.any (fun e => decide (e.1 = k)) then
    l.map (fun e => if e.1 = k then (k, v) else e)
  else l ++ [(k, v)]

/-- Collapse an ordered pair list into the flat query object the router
stores (`query[k] = v` for each pair in order, so the last value wins for
duplicate keys). -/
def collapseQuery (ps : List (List Char × List Char)) : List (List Char × List Char) :=
  ps.foldl (fun acc kv => assocSet acc kv.1 kv.2) []

/-- Characters serialized verbatim by `URLSearchParams.toString`
(`application/x-www-form-urlencoded` safe set). -/
def isFormSafe (c : Char) : Bool :=
  ('a' ≤ c ∧ c ≤ 'z') ∨ ('A' ≤ c ∧ c ≤ 'Z') ∨ ('0' ≤ c ∧ c ≤ '9') ∨
    c = '*' ∨ c = '-' ∨ c = '.' ∨ c = '_'

/-- Uppercase hex digit. -/
def hexDigitU (n : Nat) : Char :=
  if n < 10 then Char.ofNat ('0'.toNat + n) else Char.ofNat ('A'.toNat + n - 10)

/-- UTF-8 octets of a character. -/
def utf8Bytes (c : Char) : List Nat :=
  let n := c.toNat
  if n < 0x80 then [n]
  else if n < 0x800 then [0xC0 + n / 0x40, 0x80 + n % 0x40]
  else if n < 0x10000 then
    [0xE0 + n / 0x1000, 0x80 + (n / 0x40) % 0x40, 0x80 + n % 0x40]
  else
    [0xF0 + n / 0x40000, 0x80 + (n / 0x1000) % 0x40, 0x80 + (n / 0x40) % 0x40, 0x80 + n % 0x40]

/-- Form-encode one character (space becomes `+`). -/
def formEncodeChar (c : Char) : List Char :=
  if isFormSafe c then [c]
  else if c = ' ' then ['+']
  else (utf8Bytes c).flatMap (fun b => ['%', hexDigitU (b / 16), hexDigitU (b % 16)])

/-- Join with `&`. -/
def joinAmp : List (List Char) → List Char
  | [] => []
  | [x] => x
  | x :: xs => x ++ '&' :: joinAmp xs

/-- `URLSearchParams.toString`. -/
def spToString (ps : List (List Char × List Char)) : List Char :=
  joinAmp (ps.map fun e => e.1.flatMap formEncodeChar ++ '=' :: e.2.flatMap formEncodeChar)

/-! ### Navigation engine -/

/-- The mutable `current` record (`NavigationState`): the active view key,
the unmount handle (tagged with the navigation that installed it), the
normalized base-stripped path and the search string.  `none` models JS
`null`. -/
structure NavState where
  viewKey : Option (List Char)
  unboot : Option Nat
  path : Option (List Char)
  search : List Char
  deriving DecidableEq, Repr

/-- The `ui.route.*` keys of the external store (`none` = never written). -/
structure RouteStore where
  view : Option (List Char)
  path : Option (List Char)
  params : Option (List (List Char × List Char))
  query : Option (List (List Char × List Char))
  transitioning : Option Bool
  deriving DecidableEq, Repr

/-- The observable state owned or mutated by the navigation engine:
`NavigationState`, the scroll ledger, the current cancellation token and
the set of cancelled tokens (tokens are identified with the navigation
that created them — the source creates a fresh `AbortController` per
navigation), the store's route keys, the history stack (most recent entry
first; `replaceState` swaps the head, `pushState` prepends), the
`data-transitioning`/`data-view` attributes, focus and window scroll
state, and the listener/subscription registrations touched by `stop`. -/
structure MState where
  current : NavState
  scroll : List (List Char × (Nat × Nat))
  navToken : Option Nat
  cancelled : List Nat
  store : RouteStore
  history : List (List Char)
  transitioningAttr : Bool
  docView : Option (List Char)
  rootFocused : Bool
  winScroll : Nat × Nat
  clickListener : Bool
  popListener : Bool
  goSubscribed : Bool
  deriving DecidableEq, Repr

/-- Router configuration: the route list and fallback, the detected base
path, whether the mount-point element exists (`getRoot` throws when it
does not), whether a store is connected, and whether store writes throw
(they are wrapped in `try … catch {}` and swallowed). -/
structure RouterConfig where
  routes : List RouteDef
  fallback : Option RouteDef
  basePath : List Char
  rootFound : Bool
  hasStore : Bool
  storeThrows : Bool
  deriving DecidableEq, Repr

/-- The pre-compiled route list of a configuration. -/
def RouterConfig.compiled (cfg : RouterConfig) : List CompiledRoute :=
  compileRoutes cfg.routes

/-- Outcome oracle for the matched component's `boot` call of one
navigation: the component has no boot function, boot resolves (optionally
returning an unmount handle), or boot rejects/throws. -/
inductive BootSpec where
  | noBoot
  | ok (hasUnboot : Bool)
  | throws
  deriving DecidableEq, Repr

/-- One `navigate(pathname, opts)` call: its arguments plus the outcome
oracles for the opaque collaborator calls it makes (`boot`, and whether
awaiting the previous view's unboot handle throws — that call is wrapped
in `try … catch {}` so the sequence continues identically either way). -/
structure NavSpec where
  pathname : List Char
  replace : Bool
  search : List Char
  restoreScroll : Bool
  boot : BootSpec
  unbootThrows : Bool
  deriving DecidableEq, Repr

/-- An error escaping from `navigate` (the promise rejects). -/
inductive NavError where
  | rootNotFound
  | uriError
  | bootError
  deriving DecidableEq, Repr

/-- Progress of one `navigate` call through its suspension points:
not yet run, resumed after `await current.unboot()`, resumed after
`await component.boot(…)`, or returned. -/
inductive Phase where
  | start
  | postUnboot
  | postBoot
  | done
  deriving DecidableEq, Repr

/-- `search && search.startsWith('?') ? search : (search ? '?' + search : '')`. -/
def mkSearchStr (s : List Char) : List Char :=
  if s = [] then [] else if s.head? = some '?' then s else '?' :: s

/-- `scrollPositions.set(path, pos)` followed by the FIFO bound: JS `Map.set`
keeps the insertion position of an existing key and appends a new key; when
the size exceeds 50 the first (oldest-inserted) entry is deleted. -/
def recordScroll (l : List (List Char × (Nat × Nat))) (k : List Char) (v : Nat × Nat) :
    List (List Char × (Nat × Nat)) :=
  let l1 := assocSet l k v
  if 50 < l1.length then l1.drop 1 else l1

/-- The pure per-navigation values `appPath`, `searchStr` and the resolved
route, recomputed from the configuration and call arguments (they carry no
mutable state). -/
def navLocals (cfg : RouterConfig) (spec : NavSpec) :
    Except Unit (Option (List Char × List Char × Resolved)) :=
  let appPath := normalizePath (stripBase cfg.basePath spec.pathname)
  match resolve cfg.compiled cfg.fallback appPath with
  | Except.error e => Except.error e
  | Except.ok none => Except.ok none
  | Except.ok (some r) => Except.ok (some (appPath, mkSearchStr spec.search, r))

/-- The commit tail of `navigate` (everything after `await component.boot`):
first the supersession guard — if this navigation's token was cancelled
while the boot was pending, return without touching anything — otherwise
replace `current`, write the five route keys to the store in one atomic
`setMany` (swallowed when the store throws), push or replace the history
entry, set the view/transitioning attributes, focus the root, and scroll. -/
def runCommit (cfg : RouterConfig) (spec : NavSpec) (i : Nat) (unboot : Option Nat)
    (m : MState) : MState × Phase × Option NavError :=
  if i ∈ m.cancelled then (m, Phase.done, none)
  else
    match navLocals cfg spec with
    | Except.ok (some (appPath, searchStr, r)) =>
      let query := collapseQuery (parseSearch (dropQM searchStr))
      let m1 := { m with current :=
        { viewKey := some r.view, unboot := unboot, path := some appPath, search := searchStr } }
      let m2 :=
        if cfg.hasStore ∧ ¬cfg.storeThrows then
          { m1 with store :=
            { view := some r.view, path := some appPath, params := some r.params,
              query := some query, transitioning := some false } }
        else m1
      let url := withBase cfg.basePath appPath ++ searchStr
      let hist2 := if spec.replace then url :: m2.history.tail else url :: m2.history
      let m3 := { m2 with history := hist2 }
      let m4 := { m3 with
        docView := some r.view
        transitioningAttr := false
        rootFocused := true }
      let scroll2 :=
        if spec.restoreScroll then
          match m4.scroll.find? (fun e => decide (e.1 = appPath)) with
          | some e => e.2
          | none => m4.winScroll
        else (0, 0)
      let m5 := { m4 with winScroll := scroll2 }
      (m5, Phase.done, none)
    | _ => (m, Phase.done, none)

/-- The part of `navigate` after resuming from `await current.unboot()`
(an unboot failure was swallowed by its `try … catch {}`): clear the mount
point (DOM content is outside the model), then either suspend on
`await component.boot(…)` or — when there is no boot function — fall
straight through to the commit tail in the same synchronous turn. -/
def runAfterUnboot (cfg : RouterConfig) (spec : NavSpec) (i : Nat) (m : MState) :
    MState × Phase × Option NavError :=
  match spec.boot with
  | BootSpec.noBoot => runCommit cfg spec i none m
  | BootSpec.ok _ => (m, Phase.postBoot, none)
  | BootSpec.throws => (m, Phase.postBoot, none)

/-- Resuming from `await component.boot(…)`: the boot call is *not*
wrapped in a `try`, so a rejection propagates out of `navigate` and the
rest of the sequence does not run; otherwise the commit tail runs with the
returned unboot handle. -/
def runPostBoot (cfg : RouterConfig) (spec : NavSpec) (i : Nat) (m : MState) :
    MState × Phase × Option NavError :=
  match spec.boot with
  | BootSpec.throws => (m, Phase.done, some NavError.bootError)
  | BootSpec.ok h => runCommit cfg spec i (if h then some i else none) m
  | BootSpec.noBoot => runCommit cfg spec i none m

/-- Steps 4-6 of the navigation sequence, reached only past the guards:
abort the in-flight token (appending it to the cancelled set) and install
this navigation's fresh token, raise the `data-transitioning` attribute and
the store's transitioning flag (swallowed when the store throws), and
persist the outgoing path's scroll offset into the bounded ledger. -/
def startMutate (cfg : RouterConfig) (i : Nat) (m : MState) : MState :=
  let cancelled1 :=
    match m.navToken with
    | some t => m.cancelled ++ [t]
    | none => m.cancelled
  let m1 := { m with cancelled := cancelled1, navToken := some i }
  let store2 :=
    if cfg.hasStore ∧ ¬cfg.storeThrows then
      { m1.store with transitioning := some true }
    else m1.store
  let m2 := { m1 with transitioningAttr := true, store := store2 }
  match m2.current.path with
  | some p => { m2 with scroll := recordScroll m2.scroll p m2.winScroll }
  | none => m2

/-- The synchronous head of `navigate`: `getRoot` (throws when the mount
point is missing), normalize and base-strip, resolve (a `URIError` from
percent-decoding propagates), silent return on "no route", the idempotent
same-route guard, abort of the in-flight token plus creation of this
navigation's token, the transition-start attribute and store flag
(swallowed when the store throws), the scroll-ledger write, and then
either a suspension on `await current.unboot()` or — with no previous
unboot handle — the synchronous continuation. -/
def runStart (cfg : RouterConfig) (spec : NavSpec) (i : Nat) (m : MState) :
    MState × Phase × Option NavError :=
  if ¬cfg.rootFound then (m, Phase.done, some NavError.rootNotFound)
  else
    match navLocals cfg spec with
    | Except.error _ => (m, Phase.done, some NavError.uriError)
    | Except.ok none => (m, Phase.done, none)
    | Except.ok (some (appPath, searchStr, _)) =>
      if m.current.path = some appPath ∧ m.current.search = searchStr then
        (m, Phase.done, none)
      else
        let m3 := startMutate cfg i m
        if m3.current.unboot.isSome then (m3, Phase.postUnboot, none)
        else runAfterUnboot cfg spec i m3

/-- Whole-system state: the engine state, each navigation's phase, and the
errors with which `navigate` calls rejected. -/
structure Sys where
  m : MState
  phases : Nat → Phase
  errs : List (Nat × NavError)

/-- The engine state right after `createRouter`/`start` (before the first
navigation): `current` is all-null, the ledger and token state are empty,
nothing has been written to the store, and the browser history holds its
initial entry. -/
def initMState : MState :=
  { current := { viewKey := none, unboot := none, path := none, search := [] }
    scroll := []
    navToken := none
    cancelled := []
    store := { view := none, path := none, params := none, query := none, transitioning := none }
    history := [['/']]
    transitioningAttr := false
    docView := none
    rootFocused := false
    winScroll := (0, 0)
    clickListener := true
    popListener := true
    goSubscribed := true }

/-- Initial system state: every navigation still at its start. -/
def initSys : Sys :=
  { m := initMState, phases := fun _ => Phase.start, errs := [] }

/-- Record the result of one atomic turn of navigation `i`. -/
def applyStep (st : Sys) (i : Nat) : MState × Phase × Option NavError → Sys
  | (m, ph, err) =>
    { m := m
      phases := fun n => if n = i then ph else st.phases n
      errs :=
        match err with
        | some e => st.errs ++ [(i, e)]
        | none => st.errs }

/-- One atomic turn of navigation `i` (from its current suspension point
to its next one): the cooperative single-threaded scheduler runs exactly
one navigation between suspension points. -/
def sysStep (cfg : RouterConfig) (specs : Nat → NavSpec) (st : Sys) (i : Nat) : Sys :=
  match st.phases i with
  | Phase.done => st
  | Phase.start => applyStep st i (runStart cfg (specs i) i st.m)
  | Phase.postUnboot => applyStep st i (runAfterUnboot cfg (specs i) i st.m)
  | Phase.postBoot => applyStep st i (runPostBoot cfg (specs i) i st.m)

/-- Run a list of scheduler choices from a state. -/
def runFrom (cfg : RouterConfig) (specs : Nat → NavSpec) (st : Sys) (t : List Nat) : Sys :=
  t.foldl (sysStep cfg specs) st

/-- Run a schedule from the initial state. -/
def runTrace (cfg : RouterConfig) (specs : Nat → NavSpec) (t : List Nat) : Sys :=
  runFrom cfg specs initSys t

/-- Does the next turn of navigation `i` reach step 4 of the sequence
(abort the in-flight token and create its own token)?  True exactly when
`i` has not run yet and its synchronous head passes the root check, the
resolution check and the same-route guard. -/
def tokenCreating (cfg : RouterConfig) (specs : Nat → NavSpec) (st : Sys) (i : Nat) : Bool :=
  if st.phases i = Phase.start then
    if cfg.rootFound then
      match navLocals cfg (specs i) with
      | Except.ok (some x) =>
        if st.m.current.path = some x.1 ∧ st.m.current.search = x.2.1 then false else true
      | _ => false
    else false
  else false

/-- Model of `stop()`: detach the click and popstate listeners,
unsubscribe the store-driven `ui.route.go` channel, and fire-and-forget
the current unboot handle (failures swallowed); `current` itself is not
modified. -/
def stop (m : MState) : MState :=
  { m with clickListener := false, popListener := false, goSubscribed := false }

/-- Model of `getCurrent()`: a snapshot of `current`. -/
def getCurrent (m : MState) : Option (List Char) × Option (List Char) × List Char :=
  (m.current.viewKey, m.current.path, m.current.search)

/-! ### `navigateQuery` -/

/-- The arguments with which `navigateQuery` re-invokes `navigate`. -/
structure NavRequest where
  path : List Char
  search : List Char
  replace : Bool
  deriving DecidableEq, Repr

/-- The patch loop of `navigateQuery`: for each patch entry in order,
a `null`/`undefined` value (modelled `none`) or an empty-string value
deletes the key, any other value (already coerced to a string) sets it. -/
def applyPatch (ps : List (List Char × List Char))
    (patch : List (List Char × Option (List Char))) : List (List Char × List Char) :=
  patch.foldl
    (fun acc kv =>
      match kv.2 with
      | none => spDelete kv.1 acc
      | some v => if v = [] then spDelete kv.1 acc else spSet kv.1 v acc)
    ps

/-- Model of `navigateQuery(patch, {replace = true})`: parse the current
search string (sans `?`), apply the patch, serialize, and re-invoke
`navigate` on the current path (falling back to the normalized
base-stripped location pathname when no navigation has happened yet) with
the merged query; `replace` defaults to `true`. -/
def navigateQuery (basePath locationPathname : List Char) (cur : NavState)
    (patch : List (List Char × Option (List Char))) (replaceOpt : Option Bool) : NavRequest :=
  let ps := parseSearch (dropQM cur.search)
  let merged := applyPatch ps patch
  let s := spToString merged
  { path :=
      match cur.path with
      | some p => p
      | none => normalizePath (stripBase basePath locationPathname)
    search := if s = [] then [] else '?' :: s
    replace := replaceOpt.getD true }

/-- Two-route configuration exercising the supersession scenario. -/
def raceCfg : RouterConfig :=
  { routes := [⟨"/a".toList, "a".toList⟩, ⟨"/b".toList, "b".toList⟩], fallback := none,
    basePath := [], rootFound := true, hasStore := true, storeThrows := false }

/-- Navigation 0 mounts `/a` with an asynchronous boot; every other
navigation goes to `/b` with no boot (so it commits in its start turn). -/
def raceSpecs : Nat → NavSpec
  | 0 => { pathname := "/a".toList, replace := false, search := [],
           restoreScroll := false, boot := BootSpec.ok true, unbootThrows := false }
  | _ => { pathname := "/b".toList, replace := false, search := [],
           restoreScroll := false, boot := BootSpec.noBoot, unbootThrows := false }

/-- Configuration for the failure-handling scenarios, parameterized by
whether store writes throw (they are swallowed either way). -/
def c5Cfg (stTh : Bool) : RouterConfig :=
  { routes := [⟨"/a".toList, "a".toList⟩, ⟨"/b".toList, "b".toList⟩], fallback := none,
    basePath := [], rootFound := true, hasStore := true, storeThrows := stTh }

/-- Navigation 0 mounts `/a` (installing an unboot handle); every later
navigation mounts `/b`, with `ub` choosing whether awaiting the previous
unboot throws (swallowed). -/
def c5Specs (ub : Bool) : Nat → NavSpec
  | 0 => { pathname := "/a".toList, replace := false, search := [],
           restoreScroll := false, boot := BootSpec.ok true, unbootThrows := false }
  | _ => { pathname := "/b".toList, replace := false, search := [],
           restoreScroll := false, boot := BootSpec.ok false, unbootThrows := ub }

/-- As `c5Specs`, except the second navigation's mount (boot) rejects. -/
def c5FailSpecs : Nat → NavSpec
  | 0 => { pathname := "/a".toList, replace := false, search := [],
           restoreScroll := false, boot := BootSpec.ok true, unbootThrows := false }
  | _ => { pathname := "/b".toList, replace := false, search := [],
           restoreScroll := false, boot := BootSpec.throws, unbootThrows := false }

/-- All values carried by a name, in order. -/
def spGetAll (k : List Char) (ps : List (List Char × List Char)) : List (List Char) :=
  (ps.filter (fun e => decide (e.1 = k))).map (fun e => e.2)

/-- Dropping a satisfied run never lengthens a list. -/
theorem dropWhileLenLe (p : Char → Bool) :
    ∀ l : List Char, (l.dropWhile p).length ≤ l.length
  | [] => Nat.le_refl _
  | c :: l => by
    simp only [List.dropWhile]
    split
    · exact Nat.le_trans (dropWhileLenLe p l) (Nat.le_succ _)
    · exact Nat.le_refl _

/-! ### Facts about `normalizePath` -/

/-- A suffix of length at most the tail is a suffix of the tail. -/
theorem suffix_of_cons {t p : List Char} {a : Char} (h : t <:+ a :: p)
    (hlen : t.length ≤ p.length) : t <:+ p := by
  obtain ⟨u, hu⟩ := h
  cases u with
  | nil =>
    exfalso
    have := congrArg List.length hu
    simp at this
    omega
  | cons b u =>
    exact ⟨u, by simpa using congrArg List.tail hu⟩

/-- If the slash-prefixed form of `p` ends in two slashes, so does `p`
(given `p` is nonempty). -/
theorem suffix_slashslash (p : List Char) (hp : p ≠ [])
    (h : ['/', '/'] <:+ (if p.head? = some '/' then p else '/' :: p)) :
    ['/', '/'] <:+ p := by
  by_cases hc : p.head? = some '/'
  · rwa [if_pos hc] at h
  · rw [if_neg hc] at h
    cases p with
    | nil => exact absurd rfl hp
    | cons c q =>
      cases q with
      | nil =>
        exfalso
        apply hc
        obtain ⟨u, hu⟩ := h
        have hu2 : u ++ ['/', '/'] = ['/', c] := hu
        cases u with
        | nil =>
          have h3 : ('/' : Char) :: ['/'] = '/' :: [c] := by simpa using hu2
          have h5 := (List.cons.inj (List.cons.inj h3).2).1
          simp [← h5]
        | cons b v =>
          have := congrArg List.length hu2
          simp at this
      | cons d r =>
        exact suffix_of_cons h (by simp)

/-- `normalizePath` fixes any nonempty slash-headed path that is not
`/index.html` and has no strippable trailing slash. -/
theorem normalizePath_fixed {q : List Char} (hne : q ≠ [])
    (hhead : q.head? = some '/') (hidx : q ≠ "/index.html".toList)
    (hlast : ¬(1 < q.length ∧ q.getLast? = some '/')) :
    normalizePath q = q := by
  simp only [normalizePath]
  rw [if_neg hne, if_pos hhead, if_neg hidx, if_neg hlast]

/-- Concatenation with two elements at the end, for nonempty lists of
length at least two. -/
theorem exists_concat_two {l : List Char} (h : 1 < l.length) :
    ∃ t a b, l = t ++ [a, b] := by
  obtain rfl | ⟨t1, b, rfl⟩ := l.eq_nil_or_concat
  · simp at h
  · obtain rfl | ⟨t2, a, rfl⟩ := t1.eq_nil_or_concat
    · simp at h
    · exact ⟨t2, a, b, by simp⟩

/-- Claim C4 (amended): `normalizePath` is idempotent on every input that
does not end in two consecutive slashes and is neither `index.html/` nor
`/index.html/`.  (On the excluded inputs one application leaves a trailing
slash or produces exactly `/index.html`, so a second application changes
the result again.) -/
theorem normalizePath_idem (p : List Char)
    (h2 : ¬ ['/', '/'] <:+ p)
    (hi1 : p ≠ "index.html/".toList) (hi2 : p ≠ "/index.html/".toList) :
    normalizePath (normalizePath p) = normalizePath p := by
  by_cases hp : p = []
  · subst hp; decide
  · have hcore : normalizePath p =
        (if (if p.head? = some '/' then p else '/' :: p) = "/index.html".toList then ['/']
         else if 1 < (if p.head? = some '/' then p else '/' :: p).length ∧
             (if p.head? = some '/' then p else '/' :: p).getLast? = some '/' then
           (if p.head? = some '/' then p else '/' :: p).dropLast
         else (if p.head? = some '/' then p else '/' :: p)) := by
      simp only [normalizePath]
      rw [if_neg hp]
    set p1 := if p.head? = some '/' then p else '/' :: p with hp1def
    have hp1ne : p1 ≠ [] := by
      rw [hp1def]; split
      · exact hp
      · simp
    have hp1head : p1.head? = some '/' := by
      rw [hp1def]; split
      · assumption
      · simp
    by_cases hidx : p1 = "/index.html".toList
    · rw [hcore, if_pos hidx]; decide
    · rw [hcore, if_neg hidx]
      by_cases hstrip : 1 < p1.length ∧ p1.getLast? = some '/'
      · rw [if_pos hstrip]
        obtain ⟨t, a, b, hab⟩ := exists_concat_two hstrip.1
        have hb : b = '/' := by
          have := hstrip.2
          rw [hab] at this
          have h1 : (t ++ [a, b]).getLast? = some b := by
            rw [show t ++ [a, b] = (t ++ [a]) ++ [b] by simp]
            exact List.getLast?_concat _
          rw [h1] at this
          exact Option.some_inj.mp this
        have ha : a ≠ '/' := by
          intro haeq
          apply h2
          apply suffix_slashslash p hp
          rw [← hp1def, hab, haeq, hb]
          exact ⟨t, rfl⟩
        have hdrop : p1.dropLast = t ++ [a] := by
          rw [hab, show t ++ [a, b] = (t ++ [a]) ++ [b] by simp, List.dropLast_concat]
        rw [hdrop]
        have hq_ne : (t ++ [a] : List Char) ≠ [] := by simp
        have hq_head : (t ++ [a] : List Char).head? = some '/' := by
          have : p1.head? = (t ++ [a]).head? := by
            rw [hab]
            cases t <;> simp
          rw [← this, hp1head]
        have hq_idx : (t ++ [a] : List Char) ≠ "/index.html".toList := by
          intro hq
          have hp1eq : p1 = "/index.html/".toList := by
            rw [hab, hb, show ([a, '/'] : List Char) = [a] ++ ['/'] by simp, ← List.append_assoc,
              hq]
            decide
          rw [hp1def] at hp1eq
          split at hp1eq
          · exact hi2 hp1eq
          · apply hi1
            have := congrArg List.tail hp1eq
            simpa using this
        have hq_last : (t ++ [a] : List Char).getLast? = some a := List.getLast?_concat _
        apply normalizePath_fixed hq_ne hq_head hq_idx
        intro hcon
        rw [hq_last] at hcon
        exact ha (Option.some_inj.mp hcon.2)
      · rw [if_neg hstrip]
        exact normalizePath_fixed hp1ne hp1head hidx hstrip

/-- Claim C4 (counterexample): `normalizePath` is not idempotent — the
input `/a//` normalizes to `/a/`, and a second application gives `/a`. -/
theorem normalizePath_not_idem :
    normalizePath (normalizePath "/a//".toList) ≠ normalizePath "/a//".toList ∧
      normalizePath "/a//".toList = "/a/".toList ∧
      normalizePath (normalizePath "/a//".toList) = "/a".toList := by
  decide

/-- Claim C4 (witness): a concrete input satisfying the side conditions on
which idempotence holds. -/
theorem normalizePath_idem_witness :
    (¬ ['/', '/'] <:+ "/users/".toList) ∧
      normalizePath (normalizePath "/users/".toList) = normalizePath "/users/".toList :=
  ⟨by decide, normalizePath_idem "/users/".toList (by decide) (by decide) (by decide)⟩

/-! ### Facts about the pattern compiler (claim C3) -/

/-- The names collected from the split parts are exactly the parameter
tokens of the template, independent of the literal accumulator; the two
fuelled scans step in lockstep, so one shared fuel bound serves both. -/
theorem buildNames_splitParamsF : ∀ (fuel : Nat) (cs acc : List Char),
    cs.length < fuel →
    buildNames false (splitParamsF fuel acc cs) = paramTokensF fuel cs := by
  intro fuel
  induction fuel with
  | zero => intro cs acc h; exact absurd h (Nat.not_lt_zero _)
  | succ fuel ih =>
    intro cs acc h
    cases cs with
    | nil => simp [splitParamsF, paramTokensF, buildNames]
    | cons c rest =>
      by_cases hcolon : c = ':'
      · subst hcolon
        cases rest with
        | nil =>
          have hnil : ∀ f : Nat, paramTokensF f [] = [] := by
            intro f; cases f <;> rfl
          simp [splitParamsF, paramTokensF, buildNames, hnil]
        | cons d rest2 =>
          by_cases hd : isIdentStart d
          · have h2 : (rest2.dropWhile isIdentChar).length < fuel := by
              have := dropWhileLenLe isIdentChar rest2
              simp only [List.length_cons] at h
              omega
            simp only [splitParamsF, paramTokensF, hd, if_true, buildNames]
            rw [ih (rest2.dropWhile isIdentChar) [] h2]
          · have h2 : (d :: rest2).length < fuel := by
              simp only [List.length_cons] at h ⊢
              omega
            simp only [splitParamsF, paramTokensF, hd, if_false]
            exact ih (d :: rest2) (':' :: acc) h2
      · have h2 : rest.length < fuel := by
          simp only [List.length_cons] at h
          omega
        rw [show splitParamsF (fuel + 1) acc (c :: rest) = splitParamsF fuel (c :: acc) rest by
          cases rest with
          | nil => simp [splitParamsF, hcolon]
          | cons d rest2 => simp [splitParamsF, hcolon]]
        rw [show paramTokensF (fuel + 1) (c :: rest) = paramTokensF fuel rest by
          cases rest with
          | nil => simp [paramTokensF, hcolon]
          | cons d rest2 => simp [paramTokensF, hcolon]]
        exact ih rest (c :: acc) h2

/-- Wrapper form of `buildNames_splitParamsF`. -/
theorem buildNames_splitParams (cs acc : List Char) :
    buildNames false (splitParams acc cs) = paramTokens cs :=
  buildNames_splitParamsF (cs.length + 1) cs acc (Nat.lt_succ_self _)

/-- Capture-group count equals collected-name count, for both parities. -/
theorem countParams_buildPieces : ∀ (flag : Bool) (l : List (List Char)),
    countParams (buildPieces flag l) = (buildNames flag l).length
  | _, [] => by cases ‹Bool› <;> rfl
  | false, part :: rest => by
    simp only [buildPieces, buildNames, countParams]
    exact countParams_buildPieces true rest
  | true, part :: rest => by
    simp only [buildPieces, buildNames, countParams, List.length_cons]
    rw [countParams_buildPieces false rest]

/-- `splitParamsF` never returns the empty list. -/
theorem splitParamsF_ne_nil : ∀ (fuel : Nat) (cs acc : List Char),
    splitParamsF fuel acc cs ≠ [] := by
  intro fuel
  induction fuel with
  | zero => intro cs acc; simp [splitParamsF]
  | succ fuel ih =>
    intro cs acc
    cases cs with
    | nil => simp [splitParamsF]
    | cons c rest =>
      by_cases hcolon : c = ':'
      · subst hcolon
        cases rest with
        | nil => simp [splitParamsF]
        | cons d rest2 =>
          by_cases hd : isIdentStart d
          · simp [splitParamsF, hd]
          · simp only [splitParamsF, hd, if_false]
            exact ih (d :: rest2) (':' :: acc)
      · rw [show splitParamsF (fuel + 1) acc (c :: rest) = splitParamsF fuel (c :: acc) rest by
          cases rest with
          | nil => simp [splitParamsF, hcolon]
          | cons d rest2 => simp [splitParamsF, hcolon]]
        exact ih rest (c :: acc)

/-- When `splitParamsF` returns a single part, no token was found and that
part is the accumulator followed by the remaining input. -/
theorem splitParamsF_single : ∀ (fuel : Nat) (cs acc x : List Char),
    splitParamsF fuel acc cs = [x] → x = acc.reverse ++ cs := by
  intro fuel
  induction fuel with
  | zero =>
    intro cs acc x h
    simp [splitParamsF] at h
    simp [h.symm]
  | succ fuel ih =>
    intro cs acc x
    cases cs with
    | nil =>
      intro h
      simp [splitParamsF] at h
      simp [h.symm]
    | cons c rest =>
      by_cases hcolon : c = ':'
      · subst hcolon
        cases rest with
        | nil =>
          intro h
          simp [splitParamsF] at h
          simp [h.symm]
        | cons d rest2 =>
          by_cases hd : isIdentStart d
          · intro h
            simp only [splitParamsF, hd, if_true] at h
            exact absurd (congrArg List.length h) (by simp)
          · intro h
            simp only [splitParamsF, hd, if_false] at h
            have := ih (d :: rest2) (':' :: acc) x h
            simpa using this
      · intro h
        rw [show splitParamsF (fuel + 1) acc (c :: rest) = splitParamsF fuel (c :: acc) rest by
          cases rest with
          | nil => simp [splitParamsF, hcolon]
          | cons d rest2 => simp [splitParamsF, hcolon]] at h
        have := ih rest (c :: acc) x h
        simpa using this

/-- A `buildNames` result is empty only for at most one part. -/
theorem buildNames_eq_nil : ∀ (parts : List (List Char)),
    buildNames false parts = [] → parts = [] ∨ ∃ x, parts = [x]
  | [], _ => Or.inl rfl
  | [x], _ => Or.inr ⟨x, rfl⟩
  | x :: y :: rest, h => by
    exfalso
    simp [buildNames] at h

/-- `stripLit?` succeeds exactly on inputs extending the literal. -/
theorem stripLit?_eq_some : ∀ (s cs r : List Char),
    stripLit? s cs = some r ↔ cs = s ++ r
  | [], cs, r => by simp [stripLit?]
  | a :: s, [], r => by simp [stripLit?]
  | a :: s, b :: cs, r => by
    simp only [stripLit?]
    by_cases hab : a = b
    · subst hab
      rw [if_pos rfl]
      rw [stripLit?_eq_some s cs r]
      simp
    · rw [if_neg hab]
      simp
      intro hba
      exact fun _ => hab hba.symm

/-- The satisfied run is bounded by the list length. -/
theorem takeWhileLenLe (p : Char → Bool) :
    ∀ l : List Char, (l.takeWhile p).length ≤ l.length
  | [] => Nat.le_refl _
  | c :: l => by
    simp only [List.takeWhile]
    split
    · simp only [List.length_cons]
      exact Nat.succ_le_succ (takeWhileLenLe p l)
    · exact Nat.zero_le _

/-- Every element of a prefix no longer than the satisfied run satisfies
the predicate. -/
theorem take_all_pred (p : Char → Bool) :
    ∀ (cs : List Char) (k : Nat), k ≤ (cs.takeWhile p).length →
      ∀ c ∈ cs.take k, p c = true
  | [], k, hk, c, hc => by simp at hc
  | a :: cs, 0, hk, c, hc => by simp at hc
  | a :: cs, k + 1, hk, c, hc => by
    cases hpa : p a with
    | false => simp [List.takeWhile, hpa] at hk
    | true =>
      simp only [List.takeWhile, hpa, List.length_cons] at hk
      rcases (by simpa using hc : c = a ∨ c ∈ cs.take k) with rfl | hmem
      · exact hpa
      · exact take_all_pred p cs k (Nat.le_of_succ_le_succ hk) c hmem

/-- Whatever the matcher returns contains one capture per `([^/]+)` group,
each capture being one or more non-slash characters; stated for every fuel
value. -/
theorem matchPieces_caps : ∀ (fuel : Nat) (ps : List Piece) (cs : List Char)
    (caps : List (List Char)), matchPieces fuel ps cs = some caps →
    caps.length = countParams ps ∧ ∀ x ∈ caps, x ≠ [] ∧ ¬ '/' ∈ x := by
  intro fuel
  induction fuel with
  | zero => intro ps cs caps h; simp [matchPieces] at h
  | succ fuel ih =>
    have hloop : ∀ (ps : List Piece) (cs : List Char) (n : Nat) (caps : List (List Char)),
        n ≤ (cs.takeWhile (fun c => ¬(c = '/'))).length →
        paramLoop (fun k => matchPieces fuel ps (cs.drop k)) cs n = some caps →
        caps.length = countParams ps + 1 ∧ ∀ x ∈ caps, x ≠ [] ∧ ¬ '/' ∈ x := by
      intro ps cs n
      induction n with
      | zero => intro caps hn h; simp [paramLoop] at h
      | succ n ihn =>
        intro caps hn h
        simp only [paramLoop] at h
        cases hm : matchPieces fuel ps (cs.drop (n + 1)) with
        | some caps2 =>
          simp only [hm, Option.some.injEq] at h
          subst h
          obtain ⟨hlen, hprops⟩ := ih ps (cs.drop (n + 1)) caps2 hm
          constructor
          · simp [hlen]
          · intro x hx
            rcases List.mem_cons.mp hx with rfl | hx2
            · constructor
              · have h1 : n + 1 ≤ cs.length :=
                  Nat.le_trans hn (takeWhileLenLe _ cs)
                intro hnil
                have h2 := congrArg List.length hnil
                rw [List.length_take] at h2
                simp only [List.length_nil] at h2
                omega
              · intro hmem
                have h3 := take_all_pred _ cs (n + 1) hn '/' hmem
                simp at h3
            · exact hprops x hx2
        | none =>
          simp only [hm] at h
          exact ihn caps (Nat.le_of_succ_le hn) h
    intro ps cs caps h
    cases ps with
    | nil =>
      simp only [matchPieces] at h
      by_cases hcs : cs = []
      · simp only [hcs, if_true] at h
        simp only [Option.some.injEq] at h
        subst h
        exact ⟨rfl, by simp⟩
      · simp [hcs] at h
    | cons p ps2 =>
      cases p with
      | lit s =>
        simp only [matchPieces] at h
        cases hs : stripLit? s cs with
        | some rest =>
          simp only [hs] at h
          obtain ⟨h1, h2⟩ := ih ps2 rest caps h
          exact ⟨by simp [countParams, h1], h2⟩
        | none => simp [hs] at h
      | param =>
        simp only [matchPieces] at h
        obtain ⟨h1, h2⟩ := hloop ps2 cs _ caps (Nat.le_refl _) h
        exact ⟨by simp [countParams, h1], h2⟩

/-- Claim C3: for every template with k parameter tokens (a colon followed
by an ASCII letter or underscore and then letters, digits or underscores),
`compilePattern` yields exactly k capture groups and a `paramNames`
sequence listing the k parameter names in left-to-right order; every
successful match captures exactly that many segments, each one or more
non-slash characters (the matcher is anchored to the whole path); and a
template with no parameters yields empty `paramNames` and matches only the
exact literal path. -/
theorem compilePattern_correct :
    (∀ t : List Char, (compilePattern t).paramNames = paramTokens t) ∧
    (∀ t : List Char,
      countParams (compilePattern t).pieces = (compilePattern t).paramNames.length) ∧
    (∀ (t cs : List Char) (caps : List (List Char)),
      regexMatch (compilePattern t) cs = some caps →
      caps.length = (compilePattern t).paramNames.length ∧
        ∀ x ∈ caps, x ≠ [] ∧ ¬ '/' ∈ x) ∧
    (∀ t cs : List Char, (compilePattern t).paramNames = [] →
      ((regexMatch (compilePattern t) cs).isSome ↔ cs = t)) := by
  refine ⟨?_, ?_, ?_, ?_⟩
  · intro t
    exact buildNames_splitParams t []
  · intro t
    exact countParams_buildPieces false (splitParams [] t)
  · intro t cs caps h
    obtain ⟨h1, h2⟩ := matchPieces_caps _ _ _ _ h
    refine ⟨?_, h2⟩
    rw [h1]
    exact countParams_buildPieces false (splitParams [] t)
  · intro t cs hnil
    have hnil2 : buildNames false (splitParams [] t) = [] := hnil
    rcases buildNames_eq_nil _ hnil2 with hparts | ⟨x, hx⟩
    · exact absurd hparts (splitParamsF_ne_nil _ t [])
    · have hxval : x = t := by simpa using splitParamsF_single _ t [] x hx
      rw [hxval] at hx
      have hpieces : (compilePattern t).pieces = [Piece.lit t] := by
        simp only [compilePattern]
        rw [hx]
        rfl
      have hre : regexMatch (compilePattern t) cs =
          match stripLit? t cs with
          | some rest => if rest = [] then some [] else none
          | none => none := by
        simp only [regexMatch, hpieces, List.length_cons, List.length_nil, matchPieces]
      rw [hre]
      constructor
      · intro hsome
        cases hs : stripLit? t cs with
        | none => simp [hs] at hsome
        | some rest =>
          simp only [hs] at hsome
          by_cases hr : rest = []
          · subst hr
            have := (stripLit?_eq_some t cs []).mp hs
            simpa using this
          · simp [hr] at hsome
      · intro hcs
        have hs : stripLit? t cs = some [] := (stripLit?_eq_some t cs []).mpr (by simp [hcs])
        rw [hs]
        simp

/-- Claim C3 (witness): the two-parameter template `/users/:id/posts/:postId`
matched against `/users/1/posts/99`. -/
theorem compilePattern_correct_witness :
    regexMatch (compilePattern "/users/:id/posts/:postId".toList)
        "/users/1/posts/99".toList = some ["1".toList, "99".toList] ∧
      (["1".toList, "99".toList].length =
          (compilePattern "/users/:id/posts/:postId".toList).paramNames.length ∧
        ∀ x ∈ ["1".toList, "99".toList], x ≠ [] ∧ ¬ '/' ∈ x) :=
  ⟨by decide, compilePattern_correct.2.2.1 "/users/:id/posts/:postId".toList
    "/users/1/posts/99".toList ["1".toList, "99".toList] (by decide)⟩

/-! ### Facts about `resolve` (claims C2 and C10) -/

/-- Claim C2: `resolve` first normalizes the pathname, then returns the
result of the first route definition (in registration order) whose matcher
matches — independently of the later routes and of the fallback — with
`params` mapping each parameter name to the percent-decoded captured
segment; a non-matching head route is skipped; with no match and a
configured fallback it returns the fallback's view with empty params; with
no match and no fallback it returns `ok none` ("no route"), not an error.
`/users/hello%20world` against `/users/:id` gives `id = "hello world"`,
decoded exactly once (`%2520` decodes to `%20`, not to a space). -/
theorem resolve_correct :
    (∀ (compiled : List CompiledRoute) (fb : Option RouteDef) (p : List Char),
      resolve compiled fb p = resolveList fb compiled (normalizePath p)) ∧
    (∀ (r : CompiledRoute) (rs : List CompiledRoute) (fb : Option RouteDef)
        (p : List Char) (caps : List (List Char)) (params : List (List Char × List Char)),
      regexMatch r.pat (normalizePath p) = some caps →
      decodeParams r.pat.paramNames caps = some params →
      resolve (r :: rs) fb p =
        Except.ok (some { path := r.route.path, view := r.route.view, params := params })) ∧
    (∀ (r : CompiledRoute) (rs : List CompiledRoute) (fb : Option RouteDef) (p : List Char),
      regexMatch r.pat (normalizePath p) = none →
      resolve (r :: rs) fb p = resolve rs fb p) ∧
    (∀ (fb : RouteDef) (p : List Char),
      resolve [] (some fb) p =
        Except.ok (some { path := fb.path, view := fb.view, params := [] })) ∧
    (∀ p : List Char, resolve [] none p = Except.ok none) ∧
    (resolve (compileRoutes [⟨"/users/:id".toList, "user".toList⟩]) none
        "/users/hello%20world".toList =
      Except.ok (some { path := "/users/:id".toList, view := "user".toList,
                        params := [("id".toList, "hello world".toList)] })) ∧
    (resolve (compileRoutes [⟨"/users/:id".toList, "user".toList⟩]) none
        "/users/hello%2520world".toList =
      Except.ok (some { path := "/users/:id".toList, view := "user".toList,
                        params := [("id".toList, "hello%20world".toList)] })) := by
  refine ⟨fun _ _ _ => rfl, ?_, ?_, fun _ _ => rfl, fun _ => rfl, by decide, by decide⟩
  · intro r rs fb p caps params h1 h2
    simp [resolve, resolveList, h1, h2]
  · intro r rs fb p h
    simp [resolve, resolveList, h]

/-- Claim C2 (witness): first-match-wins applied to a concrete overlapping
route table — `/users/new` resolves through the earlier-registered
`/users/:id` even though the later literal route also matches. -/
theorem resolve_correct_witness :
    regexMatch (compilePattern "/users/:id".toList) (normalizePath "/users/new".toList) =
        some ["new".toList] ∧
      decodeParams (compilePattern "/users/:id".toList).paramNames ["new".toList] =
        some [("id".toList, "new".toList)] ∧
      resolve
          [{ route := ⟨"/users/:id".toList, "user".toList⟩,
             pat := compilePattern "/users/:id".toList },
           { route := ⟨"/users/new".toList, "newUser".toList⟩,
             pat := compilePattern "/users/new".toList }] none "/users/new".toList =
        Except.ok (some { path := "/users/:id".toList, view := "user".toList,
                          params := [("id".toList, "new".toList)] }) :=
  ⟨by decide, by decide,
    resolve_correct.2.1
      { route := ⟨"/users/:id".toList, "user".toList⟩,
        pat := compilePattern "/users/:id".toList }
      [{ route := ⟨"/users/new".toList, "newUser".toList⟩,
         pat := compilePattern "/users/new".toList }] none "/users/new".toList
      ["new".toList] [("id".toList, "new".toList)] (by decide) (by decide)⟩

/-- Claim C10: `resolve` is not total over string inputs — when a matched
dynamic segment holds a malformed percent escape (`/users/%`, `/users/%zz`
against `/users/:id`), the percent-decoding step throws a `URIError`
(modelled `Except.error`), and a `navigate` through such a path rejects
with that error while leaving the engine state untouched. -/
theorem resolve_not_total :
    resolve (compileRoutes [⟨"/users/:id".toList, "user".toList⟩]) none
        "/users/%".toList = Except.error () ∧
      resolve (compileRoutes [⟨"/users/:id".toList, "user".toList⟩]) none
        "/users/%zz".toList = Except.error () ∧
      (runTrace
          { routes := [⟨"/users/:id".toList, "user".toList⟩], fallback := none,
            basePath := [], rootFound := true, hasStore := false, storeThrows := false }
          (fun _ => { pathname := "/users/%".toList, replace := false, search := [],
                      restoreScroll := false, boot := BootSpec.noBoot,
                      unbootThrows := false })
          [0]).errs = [(0, NavError.uriError)] ∧
      (runTrace
          { routes := [⟨"/users/:id".toList, "user".toList⟩], fallback := none,
            basePath := [], rootFound := true, hasStore := false, storeThrows := false }
          (fun _ => { pathname := "/users/%".toList, replace := false, search := [],
                      restoreScroll := false, boot := BootSpec.noBoot,
                      unbootThrows := false })
          [0]).m = initMState := by
  refine ⟨by decide, by decide, by decide, by decide⟩

/-! ### Navigation-engine lemmas (claims C1, C5, C7, C9)

The supersession argument: once a navigation has created its token, the
disjunction "this token is already cancelled, or it is the current token"
is preserved by every scheduler step, and any token-creating step turns
the second disjunct into the first.  A navigation whose token is cancelled
commits nothing in any of its later turns. -/

/-- The commit tail never touches the token state. -/
theorem runCommit_token (cfg : RouterConfig) (spec : NavSpec) (i : Nat)
    (u : Option Nat) (m : MState) :
    (runCommit cfg spec i u m).1.navToken = m.navToken ∧
      (runCommit cfg spec i u m).1.cancelled = m.cancelled := by
  unfold runCommit
  split
  · exact ⟨rfl, rfl⟩
  · split
    · split <;> exact ⟨rfl, rfl⟩
    · exact ⟨rfl, rfl⟩

/-- The supersession guard: a commit attempt by a cancelled navigation
returns without any state change. -/
theorem runCommit_of_cancelled (cfg : RouterConfig) (spec : NavSpec) (i : Nat)
    (u : Option Nat) (m : MState) (h : i ∈ m.cancelled) :
    runCommit cfg spec i u m = (m, Phase.done, none) := by
  unfold runCommit
  rw [if_pos h]

/-- The post-unboot segment never touches the token state. -/
theorem runAfterUnboot_token (cfg : RouterConfig) (spec : NavSpec) (i : Nat) (m : MState) :
    (runAfterUnboot cfg spec i m).1.navToken = m.navToken ∧
      (runAfterUnboot cfg spec i m).1.cancelled = m.cancelled := by
  unfold runAfterUnboot
  cases spec.boot with
  | noBoot => exact runCommit_token cfg spec i none m
  | ok h => exact ⟨rfl, rfl⟩
  | throws => exact ⟨rfl, rfl⟩

/-- The post-boot segment never touches the token state. -/
theorem runPostBoot_token (cfg : RouterConfig) (spec : NavSpec) (i : Nat) (m : MState) :
    (runPostBoot cfg spec i m).1.navToken = m.navToken ∧
      (runPostBoot cfg spec i m).1.cancelled = m.cancelled := by
  unfold runPostBoot
  cases spec.boot with
  | noBoot => exact runCommit_token cfg spec i none m
  | ok h => exact runCommit_token cfg spec i _ m
  | throws => exact ⟨rfl, rfl⟩

/-- A cancelled navigation resuming after its unboot await changes nothing. -/
theorem runAfterUnboot_of_cancelled (cfg : RouterConfig) (spec : NavSpec) (i : Nat)
    (m : MState) (h : i ∈ m.cancelled) :
    (runAfterUnboot cfg spec i m).1 = m := by
  unfold runAfterUnboot
  cases spec.boot with
  | noBoot =>
    dsimp only
    rw [runCommit_of_cancelled cfg spec i none m h]
  | ok hb => rfl
  | throws => rfl

/-- A cancelled navigation resuming after its boot await changes nothing:
the supersession guard (or the propagating boot error) stops it. -/
theorem runPostBoot_of_cancelled (cfg : RouterConfig) (spec : NavSpec) (i : Nat)
    (m : MState) (h : i ∈ m.cancelled) :
    (runPostBoot cfg spec i m).1 = m := by
  unfold runPostBoot
  cases spec.boot with
  | noBoot =>
    dsimp only
    rw [runCommit_of_cancelled cfg spec i none m h]
  | ok hb =>
    dsimp only
    rw [runCommit_of_cancelled cfg spec i _ m h]
  | throws => rfl

/-- A finished navigation's turn is a no-op. -/
theorem sysStep_of_done (cfg : RouterConfig) (specs : Nat → NavSpec) (st : Sys) (i : Nat)
    (h : st.phases i = Phase.done) : sysStep cfg specs st i = st := by
  unfold sysStep
  rw [h]

/-- Claim C1 abandonment core: once its token is cancelled, a navigation
that has passed its start turn never changes the engine state again. -/
theorem sysStep_of_cancelled (cfg : RouterConfig) (specs : Nat → NavSpec) (st : Sys) (i : Nat)
    (hph : st.phases i ≠ Phase.start) (hc : i ∈ st.m.cancelled) :
    (sysStep cfg specs st i).m = st.m := by
  unfold sysStep
  cases h : st.phases i with
  | start => exact absurd h hph
  | done => rfl
  | postUnboot => exact runAfterUnboot_of_cancelled cfg (specs i) i st.m hc
  | postBoot => exact runPostBoot_of_cancelled cfg (specs i) i st.m hc

/-- Another navigation's turn does not change this navigation's phase. -/
theorem sysStep_phases_ne (cfg : RouterConfig) (specs : Nat → NavSpec) (st : Sys)
    (i k : Nat) (hik : i ≠ k) : (sysStep cfg specs st k).phases i = st.phases i := by
  unfold sysStep
  cases st.phases k with
  | done => rfl
  | start => simp [applyStep, hik]
  | postUnboot => simp [applyStep, hik]
  | postBoot => simp [applyStep, hik]

/-- The phase produced by the commit tail. -/
theorem runCommit_phase (cfg : RouterConfig) (spec : NavSpec) (i : Nat)
    (u : Option Nat) (m : MState) : (runCommit cfg spec i u m).2.1 = Phase.done := by
  unfold runCommit
  split
  · rfl
  · split
    · split <;> rfl
    · rfl

/-- The post-unboot segment never produces the start phase. -/
theorem runAfterUnboot_phase (cfg : RouterConfig) (spec : NavSpec) (i : Nat) (m : MState) :
    (runAfterUnboot cfg spec i m).2.1 ≠ Phase.start := by
  unfold runAfterUnboot
  cases spec.boot with
  | noBoot => rw [runCommit_phase]; exact fun h => Phase.noConfusion h
  | ok h => exact fun h => Phase.noConfusion h
  | throws => exact fun h => Phase.noConfusion h

/-- The post-boot segment never produces the start phase. -/
theorem runPostBoot_phase (cfg : RouterConfig) (spec : NavSpec) (i : Nat) (m : MState) :
    (runPostBoot cfg spec i m).2.1 ≠ Phase.start := by
  unfold runPostBoot
  cases spec.boot with
  | noBoot => rw [runCommit_phase]; exact fun h => Phase.noConfusion h
  | ok h => rw [runCommit_phase]; exact fun h => Phase.noConfusion h
  | throws => exact fun h => Phase.noConfusion h

/-- The start segment never produces the start phase. -/
theorem runStart_phase (cfg : RouterConfig) (spec : NavSpec) (i : Nat) (m : MState) :
    (runStart cfg spec i m).2.1 ≠ Phase.start := by
  unfold runStart
  split
  · exact fun h => Phase.noConfusion h
  · split
    · exact fun h => Phase.noConfusion h
    · exact fun h => Phase.noConfusion h
    · split
      · exact fun h => Phase.noConfusion h
      · dsimp only
        split
        · exact fun h => Phase.noConfusion h
        · exact runAfterUnboot_phase cfg spec i _

/-- `applyStep` records the returned state. -/
theorem applyStep_m (st : Sys) (i : Nat) (x : MState × Phase × Option NavError) :
    (applyStep st i x).m = x.1 := rfl

/-- The start mutation installs this navigation's token. -/
theorem startMutate_navToken (cfg : RouterConfig) (i : Nat) (m : MState) :
    (startMutate cfg i m).navToken = some i := by
  unfold startMutate
  dsimp only
  split <;> rfl

/-- The start mutation keeps every already-cancelled token cancelled. -/
theorem startMutate_cancelled_mono (cfg : RouterConfig) (i : Nat) (m : MState) (c : Nat)
    (h : c ∈ m.cancelled) : c ∈ (startMutate cfg i m).cancelled := by
  unfold startMutate
  dsimp only
  split
  · split
    · exact List.mem_append_left _ h
    · exact h
  · split
    · exact List.mem_append_left _ h
    · exact h

/-- The start mutation cancels the in-flight token. -/
theorem startMutate_cancels (cfg : RouterConfig) (i : Nat) (m : MState) (t : Nat)
    (h : m.navToken = some t) : t ∈ (startMutate cfg i m).cancelled := by
  unfold startMutate
  dsimp only
  rw [h]
  split <;> simp

/-- After its own turn a navigation is never back at start. -/
theorem sysStep_own_phase (cfg : RouterConfig) (specs : Nat → NavSpec) (st : Sys) (i : Nat) :
    (sysStep cfg specs st i).phases i ≠ Phase.start := by
  unfold sysStep
  cases h : st.phases i with
  | done => rw [h]; exact fun hh => Phase.noConfusion hh
  | start =>
    simp only [applyStep]
    rw [if_pos trivial]
    exact runStart_phase cfg (specs i) i st.m
  | postUnboot =>
    simp only [applyStep]
    rw [if_pos trivial]
    exact runAfterUnboot_phase cfg (specs i) i st.m
  | postBoot =>
    simp only [applyStep]
    rw [if_pos trivial]
    exact runPostBoot_phase cfg (specs i) i st.m

/-- The start segment only ever appends to the cancelled set. -/
theorem runStart_cancelled_mono (cfg : RouterConfig) (spec : NavSpec) (i : Nat)
    (m : MState) (c : Nat) (h : c ∈ m.cancelled) :
    c ∈ (runStart cfg spec i m).1.cancelled := by
  unfold runStart
  split
  · exact h
  · split
    · exact h
    · exact h
    · split
      · exact h
      · dsimp only
        split
        · exact startMutate_cancelled_mono cfg i m c h
        · rw [(runAfterUnboot_token cfg spec i _).2]
          exact startMutate_cancelled_mono cfg i m c h

/-- Every scheduler step keeps cancelled tokens cancelled. -/
theorem sysStep_cancelled_mono (cfg : RouterConfig) (specs : Nat → NavSpec) (st : Sys)
    (k c : Nat) (h : c ∈ st.m.cancelled) : c ∈ (sysStep cfg specs st k).m.cancelled := by
  unfold sysStep
  cases hph : st.phases k with
  | done => exact h
  | start => exact runStart_cancelled_mono cfg (specs k) k st.m c h
  | postUnboot =>
    rw [applyStep_m, (runAfterUnboot_token cfg (specs k) k st.m).2]
    exact h
  | postBoot =>
    rw [applyStep_m, (runPostBoot_token cfg (specs k) k st.m).2]
    exact h

/-- A token-creating turn installs the creator's token and cancels the
previously current one (while keeping every cancelled token cancelled). -/
theorem sysStep_creating (cfg : RouterConfig) (specs : Nat → NavSpec) (st : Sys) (k : Nat)
    (htc : tokenCreating cfg specs st k = true) :
    (sysStep cfg specs st k).m.navToken = some k ∧
      (∀ t, st.m.navToken = some t → t ∈ (sysStep cfg specs st k).m.cancelled) := by
  unfold tokenCreating at htc
  by_cases hph : st.phases k = Phase.start
  · rw [if_pos hph] at htc
    by_cases hroot : cfg.rootFound = true
    · rw [if_pos hroot] at htc
      unfold sysStep
      rw [hph, applyStep_m]
      unfold runStart
      rw [if_neg (not_not_intro hroot)]
      cases hloc : navLocals cfg (specs k) with
      | error e =>
        rw [hloc] at htc
        dsimp only at htc
        exact Bool.noConfusion htc
      | ok o =>
        cases o with
        | none =>
          rw [hloc] at htc
          dsimp only at htc
          exact Bool.noConfusion htc
        | some x =>
          obtain ⟨a, b2, r⟩ := x
          rw [hloc] at htc
          dsimp only at htc ⊢
          by_cases hg : st.m.current.path = some a ∧ st.m.current.search = b2
          · rw [if_pos hg] at htc; exact absurd htc (by simp)
          · rw [if_neg hg]
            split
            · exact ⟨startMutate_navToken cfg k st.m,
                fun t ht => startMutate_cancels cfg k st.m t ht⟩
            · constructor
              · rw [(runAfterUnboot_token cfg (specs k) k _).1]
                exact startMutate_navToken cfg k st.m
              · intro t ht
                rw [(runAfterUnboot_token cfg (specs k) k _).2]
                exact startMutate_cancels cfg k st.m t ht
    · rw [if_neg hroot] at htc
      exact absurd htc (by simp)
  · rw [if_neg hph] at htc
    exact absurd htc (by simp)

/-- A turn that does not create a token leaves the token state unchanged. -/
theorem sysStep_not_creating (cfg : RouterConfig) (specs : Nat → NavSpec) (st : Sys) (k : Nat)
    (htc : tokenCreating cfg specs st k = false) :
    (sysStep cfg specs st k).m.navToken = st.m.navToken ∧
      (sysStep cfg specs st k).m.cancelled = st.m.cancelled := by
  unfold sysStep
  cases hph : st.phases k with
  | done => exact ⟨rfl, rfl⟩
  | postUnboot =>
    rw [applyStep_m]
    exact runAfterUnboot_token cfg (specs k) k st.m
  | postBoot =>
    rw [applyStep_m]
    exact runPostBoot_token cfg (specs k) k st.m
  | start =>
    rw [applyStep_m]
    unfold tokenCreating at htc
    rw [if_pos hph] at htc
    unfold runStart
    by_cases hroot : cfg.rootFound = true
    · rw [if_pos hroot] at htc
      rw [if_neg (not_not_intro hroot)]
      cases hloc : navLocals cfg (specs k) with
      | error e => exact ⟨rfl, rfl⟩
      | ok o =>
        cases o with
        | none => exact ⟨rfl, rfl⟩
        | some x =>
          obtain ⟨a, b2, r⟩ := x
          rw [hloc] at htc
          dsimp only at htc ⊢
          by_cases hg : st.m.current.path = some a ∧ st.m.current.search = b2
          · rw [if_pos hg]
            exact ⟨rfl, rfl⟩
          · rw [if_neg hg] at htc
            exact absurd htc (by simp)
    · rw [if_pos (by simpa using hroot)]
      exact ⟨rfl, rfl⟩

/-- Traces only grow the cancelled set. -/
theorem runFrom_cancelled_mono (cfg : RouterConfig) (specs : Nat → NavSpec) :
    ∀ (t : List Nat) (st : Sys) (c : Nat), c ∈ st.m.cancelled →
      c ∈ (runFrom cfg specs st t).m.cancelled
  | [], _, _, h => h
  | k :: t, st, c, h =>
    runFrom_cancelled_mono cfg specs t (sysStep cfg specs st k) c
      (sysStep_cancelled_mono cfg specs st k c h)

/-- Once a navigation has left its start phase it never returns to it,
whatever the schedule does. -/
theorem runFrom_phase_ne_start (cfg : RouterConfig) (specs : Nat → NavSpec) :
    ∀ (t : List Nat) (st : Sys) (i : Nat), st.phases i ≠ Phase.start →
      (runFrom cfg specs st t).phases i ≠ Phase.start
  | [], _, _, h => h
  | k :: t, st, i, h => by
    apply runFrom_phase_ne_start cfg specs t (sysStep cfg specs st k) i
    by_cases hik : i = k
    · subst hik
      exact sysStep_own_phase cfg specs st i
    · rw [sysStep_phases_ne cfg specs st i k hik]
      exact h

/-- The superseded-or-current disjunction is a trace invariant: from the
moment a navigation's token exists, it is either the current token or a
cancelled one, forever. -/
theorem runFrom_token_invariant (cfg : RouterConfig) (specs : Nat → NavSpec) :
    ∀ (t : List Nat) (st : Sys) (i : Nat),
      (i ∈ st.m.cancelled ∨ st.m.navToken = some i) →
      (i ∈ (runFrom cfg specs st t).m.cancelled ∨
        (runFrom cfg specs st t).m.navToken = some i)
  | [], _, _, h => h
  | k :: t, st, i, h => by
    apply runFrom_token_invariant cfg specs t (sysStep cfg specs st k) i
    rcases h with hc | htok
    · exact Or.inl (sysStep_cancelled_mono cfg specs st k i hc)
    · by_cases htc : tokenCreating cfg specs st k = true
      · exact Or.inl ((sysStep_creating cfg specs st k htc).2 i htok)
      · rw [(sysStep_not_creating cfg specs st k (by
          revert htc
          cases tokenCreating cfg specs st k <;> simp)).1]
        exact Or.inr htok

/-- Schedules compose. -/
theorem runFrom_append (cfg : RouterConfig) (specs : Nat → NavSpec) (st : Sys)
    (t u : List Nat) :
    runFrom cfg specs st (t ++ u) = runFrom cfg specs (runFrom cfg specs st t) u := by
  unfold runFrom
  exact List.foldl_append _ _ _ _

/-- Claim C1: (a) abandonment — a navigation whose cancellation token has
been cancelled by the time its view-mount step completes commits none of
its effects: its post-boot turn leaves the entire engine state
(NavigationState, history, scroll ledger, store route keys, attributes)
exactly as it was at that point; (b) linearization — whenever navigation
`i` creates its token and a navigation `j` creates its token at any later
point of the schedule, every subsequent turn of `i` (in particular the one
where its mount resolves) changes nothing: only the most recently started
navigation's state/history/store effects are ever committed. -/
theorem navigation_supersession :
    (∀ (cfg : RouterConfig) (specs : Nat → NavSpec) (st : Sys) (i : Nat),
      st.phases i = Phase.postBoot → i ∈ st.m.cancelled →
      (sysStep cfg specs st i).m = st.m) ∧
    (∀ (cfg : RouterConfig) (specs : Nat → NavSpec) (t1 t2 t3 : List Nat) (i j : Nat),
      tokenCreating cfg specs (runTrace cfg specs t1) i = true →
      tokenCreating cfg specs (runTrace cfg specs (t1 ++ i :: t2)) j = true →
      (sysStep cfg specs (runTrace cfg specs (t1 ++ i :: t2 ++ j :: t3)) i).m =
        (runTrace cfg specs (t1 ++ i :: t2 ++ j :: t3)).m) := by
  constructor
  · intro cfg specs st i hph hc
    exact sysStep_of_cancelled cfg specs st i
      (by rw [hph]; exact fun h => Phase.noConfusion h) hc
  · intro cfg specs t1 t2 t3 i j h1 h2
    have e1 : runTrace cfg specs (t1 ++ i :: t2) =
        runFrom cfg specs (sysStep cfg specs (runTrace cfg specs t1) i) t2 := by
      unfold runTrace
      rw [runFrom_append]
      rfl
    have e2 : runTrace cfg specs (t1 ++ i :: t2 ++ j :: t3) =
        runFrom cfg specs
          (sysStep cfg specs (runTrace cfg specs (t1 ++ i :: t2)) j) t3 := by
      unfold runTrace
      rw [runFrom_append]
      rfl
    have hD1 : i ∈ (sysStep cfg specs (runTrace cfg specs t1) i).m.cancelled ∨
        (sysStep cfg specs (runTrace cfg specs t1) i).m.navToken = some i :=
      Or.inr (sysStep_creating cfg specs _ i h1).1
    have hD2 := runFrom_token_invariant cfg specs t2 _ i hD1
    rw [← e1] at hD2
    have hc3 : i ∈ (sysStep cfg specs (runTrace cfg specs (t1 ++ i :: t2)) j).m.cancelled := by
      rcases hD2 with hc | htok
      · exact sysStep_cancelled_mono cfg specs _ j i hc
      · exact (sysStep_creating cfg specs _ j h2).2 i htok
    have hc4 : i ∈ (runTrace cfg specs (t1 ++ i :: t2 ++ j :: t3)).m.cancelled := by
      rw [e2]
      exact runFrom_cancelled_mono cfg specs t3 _ i hc3
    have hph4 : (runTrace cfg specs (t1 ++ i :: t2 ++ j :: t3)).phases i ≠ Phase.start := by
      rw [e2]
      apply runFrom_phase_ne_start
      by_cases hij : i = j
      · subst hij
        exact sysStep_own_phase cfg specs _ i
      · rw [sysStep_phases_ne cfg specs _ i j hij]
        rw [e1]
        apply runFrom_phase_ne_start
        exact sysStep_own_phase cfg specs _ i
    exact sysStep_of_cancelled cfg specs _ i hph4 hc4

/-- Claim C1 (witness): navigation 0 starts and suspends in its boot,
navigation 1 starts (cancelling 0) and commits; navigation 0's mount then
resolves and commits nothing. -/
theorem navigation_supersession_witness :
    tokenCreating raceCfg raceSpecs (runTrace raceCfg raceSpecs []) 0 = true ∧
      tokenCreating raceCfg raceSpecs (runTrace raceCfg raceSpecs ([] ++ 0 :: [])) 1 = true ∧
      (sysStep raceCfg raceSpecs (runTrace raceCfg raceSpecs ([] ++ 0 :: [] ++ 1 :: [])) 0).m =
        (runTrace raceCfg raceSpecs ([] ++ 0 :: [] ++ 1 :: [])).m :=
  ⟨by decide, by decide,
    navigation_supersession.2 raceCfg raceSpecs [] [] [] 0 1 (by decide) (by decide)⟩

/-! ### The same-route no-op guard (claim C7) -/

/-- Claim C7: a `navigate` call whose normalized, base-stripped target path
and whose (`?`-normalized) search string both equal `NavigationState`'s
current path and search returns immediately as a no-op: the entire engine
state (no unmount/mount, no history entry, no store write, `current`
unchanged) is untouched, the call completes, and no error is raised. -/
theorem navigate_same_route_noop (cfg : RouterConfig) (specs : Nat → NavSpec) (st : Sys)
    (i : Nat) (x : List Char × List Char × Resolved)
    (hph : st.phases i = Phase.start)
    (hroot : cfg.rootFound = true)
    (hloc : navLocals cfg (specs i) = Except.ok (some x))
    (hpath : st.m.current.path = some x.1)
    (hsearch : st.m.current.search = x.2.1) :
    (sysStep cfg specs st i).m = st.m ∧
      (sysStep cfg specs st i).phases i = Phase.done ∧
      (sysStep cfg specs st i).errs = st.errs := by
  obtain ⟨a, b2, r⟩ := x
  have hrun : runStart cfg (specs i) i st.m = (st.m, Phase.done, none) := by
    unfold runStart
    rw [if_neg (not_not_intro hroot), hloc]
    dsimp only
    rw [if_pos ⟨hpath, hsearch⟩]
  unfold sysStep
  rw [hph, hrun]
  refine ⟨rfl, ?_, rfl⟩
  simp [applyStep]

/-- Claim C7 (witness): after navigation 1 commits `/b`, a later navigate
to `/b` with the same (empty) search is a complete no-op. -/
theorem navigate_same_route_noop_witness :
    (runTrace raceCfg raceSpecs [1]).phases 2 = Phase.start ∧
      navLocals raceCfg (raceSpecs 2) =
        Except.ok (some ("/b".toList, [],
          { path := "/b".toList, view := "b".toList, params := [] })) ∧
      (runTrace raceCfg raceSpecs [1]).m.current.path = some "/b".toList ∧
      (runTrace raceCfg raceSpecs [1]).m.current.search = [] ∧
      (sysStep raceCfg raceSpecs (runTrace raceCfg raceSpecs [1]) 2).m =
        (runTrace raceCfg raceSpecs [1]).m :=
  ⟨by decide, by decide, by decide, by decide,
    (navigate_same_route_noop raceCfg raceSpecs (runTrace raceCfg raceSpecs [1]) 2
      ("/b".toList, [], { path := "/b".toList, view := "b".toList, params := [] })
      (by decide) (by decide) (by decide) (by decide) (by decide)).1⟩

/-! ### Collaborator-failure handling (claim C5) -/

/-- Claim C5 (counterexample): a failing mount *does* short-circuit the
sequence — after `/a` is active and a navigation to `/b` whose boot throws
runs to completion, `navigate` has rejected with the boot error, no `/b`
history entry was created, the transitioning attribute is still `on` and
the store's transitioning flag is still `true`: history and focus/scroll
state do not reach the consistent final state the claim asserts. -/
theorem boot_failure_short_circuits :
    (runTrace (c5Cfg false) c5FailSpecs [0, 0, 1, 1, 1]).errs =
        [(1, NavError.bootError)] ∧
      (runTrace (c5Cfg false) c5FailSpecs [0, 0, 1, 1, 1]).m.history =
        ["/a".toList, "/".toList] ∧
      (runTrace (c5Cfg false) c5FailSpecs [0, 0, 1, 1, 1]).m.transitioningAttr = true ∧
      (runTrace (c5Cfg false) c5FailSpecs [0, 0, 1, 1, 1]).m.store.transitioning =
        some true := by
  decide

/-- Claim C5 (amended): store-write failures and unmount failures are
swallowed and never block a navigation — with any combination of a
throwing store and a throwing unboot, the second navigation still commits
its history entry, clears the transitioning attribute, focuses the root
and resets scroll, with no error escaping; but a mount (boot) failure is
not caught: it propagates out of `navigate` and short-circuits the
sequence, leaving no new history entry and the transitioning state set. -/
theorem collaborator_failures :
    (∀ stTh ub : Bool,
      (runTrace (c5Cfg stTh) (c5Specs ub) [0, 0, 1, 1, 1]).m.history =
          ["/b".toList, "/a".toList, "/".toList] ∧
        (runTrace (c5Cfg stTh) (c5Specs ub) [0, 0, 1, 1, 1]).m.transitioningAttr = false ∧
        (runTrace (c5Cfg stTh) (c5Specs ub) [0, 0, 1, 1, 1]).m.rootFocused = true ∧
        (runTrace (c5Cfg stTh) (c5Specs ub) [0, 0, 1, 1, 1]).m.winScroll = (0, 0) ∧
        (runTrace (c5Cfg stTh) (c5Specs ub) [0, 0, 1, 1, 1]).phases 1 = Phase.done ∧
        (runTrace (c5Cfg stTh) (c5Specs ub) [0, 0, 1, 1, 1]).errs = []) ∧
    (∀ stTh : Bool,
      (runTrace (c5Cfg stTh) c5FailSpecs [0, 0, 1, 1, 1]).errs =
          [(1, NavError.bootError)] ∧
        (runTrace (c5Cfg stTh) c5FailSpecs [0, 0, 1, 1, 1]).m.history =
          ["/a".toList, "/".toList] ∧
        (runTrace (c5Cfg stTh) c5FailSpecs [0, 0, 1, 1, 1]).m.transitioningAttr = true) := by
  constructor
  · decide
  · decide

/-! ### `stop` and `getCurrent` (claim C6) -/

/-- Claim C6 (counterexample): `stop()` does not reset `NavigationState` —
on a state whose current view is `user` at `/users/42?tab=posts`, a
`getCurrent()` after `stop()` still reports exactly that view, path and
search as current. -/
theorem stop_does_not_reset :
    getCurrent (stop { initMState with current :=
        { viewKey := some "user".toList, unboot := some 0,
          path := some "/users/42".toList, search := "?tab=posts".toList } }) =
      (some "user".toList, some "/users/42".toList, "?tab=posts".toList) := by
  decide

/-- Claim C6 (amended): `stop()` detaches the click and popstate listeners,
removes the store-driven `go` subscription and best-effort invokes the
current unboot handle, but it never destroys or resets `NavigationState`:
`getCurrent()` afterwards reports exactly the same view, path and search
as before. -/
theorem stop_spec (m : MState) :
    getCurrent (stop m) = getCurrent m ∧
      (stop m).current = m.current ∧
      (stop m).clickListener = false ∧
      (stop m).popListener = false ∧
      (stop m).goSubscribed = false :=
  ⟨rfl, rfl, rfl, rfl, rfl⟩

/-! ### The scroll ledger bound (claim C9) -/

/-- Setting a key grows the list by at most one entry. -/
theorem assocSet_length {V : Type} (l : List (List Char × V)) (k : List Char) (v : V) :
    (assocSet l k v).length ≤ l.length + 1 := by
  unfold assocSet
  split
  · simp
  · simp

/-- One ledger write keeps the ledger within the bound. -/
theorem recordScroll_length (l : List (List Char × (Nat × Nat))) (k : List Char)
    (v : Nat × Nat) (h : l.length ≤ 50) : (recordScroll l k v).length ≤ 50 := by
  unfold recordScroll
  dsimp only
  have hset := assocSet_length l k v
  split
  · rename_i hgt
    rw [List.length_drop]
    omega
  · rename_i hle
    omega

/-- When a full ledger receives a fresh path, the oldest-inserted entry is
evicted and the new entry is appended: FIFO by insertion order. -/
theorem recordScroll_evicts (l : List (List Char × (Nat × Nat))) (k : List Char)
    (v : Nat × Nat) (hlen : l.length = 50) (hk : ∀ e ∈ l, e.1 ≠ k) :
    recordScroll l k v = l.drop 1 ++ [(k, v)] := by
  have hfresh : l.any (fun e => decide (e.1 = k)) = false := by
    rw [List.any_eq_false]
    intro e he
    simpa using hk e he
  have hset : assocSet l k v = l ++ [(k, v)] := by
    unfold assocSet
    rw [hfresh]
    exact if_neg (by simp)
  unfold recordScroll
  dsimp only
  rw [hset]
  rw [if_pos (by simp [hlen])]
  cases l with
  | nil => simp at hlen
  | cons e l2 => simp

/-- Updating a path already in the ledger keeps the size unchanged (and
does not refresh its position — JS `Map.set` keeps insertion order). -/
theorem recordScroll_update (l : List (List Char × (Nat × Nat))) (k : List Char)
    (v : Nat × Nat) (hlen : l.length ≤ 50) (hk : l.any (fun e => decide (e.1 = k)) = true) :
    recordScroll l k v = l.map (fun e => if e.1 = k then (k, v) else e) := by
  have hset : assocSet l k v = l.map (fun e => if e.1 = k then (k, v) else e) := by
    unfold assocSet
    rw [hk]
    exact if_pos rfl
  unfold recordScroll
  dsimp only
  rw [hset]
  rw [if_neg (by simp only [List.length_map]; omega)]

/-- The commit tail never touches the ledger. -/
theorem runCommit_scroll (cfg : RouterConfig) (spec : NavSpec) (i : Nat)
    (u : Option Nat) (m : MState) : (runCommit cfg spec i u m).1.scroll = m.scroll := by
  unfold runCommit
  split
  · rfl
  · split
    · split <;> rfl
    · rfl

/-- The post-unboot segment never touches the ledger. -/
theorem runAfterUnboot_scroll (cfg : RouterConfig) (spec : NavSpec) (i : Nat) (m : MState) :
    (runAfterUnboot cfg spec i m).1.scroll = m.scroll := by
  unfold runAfterUnboot
  cases spec.boot with
  | noBoot => exact runCommit_scroll cfg spec i none m
  | ok h => rfl
  | throws => rfl

/-- The post-boot segment never touches the ledger. -/
theorem runPostBoot_scroll (cfg : RouterConfig) (spec : NavSpec) (i : Nat) (m : MState) :
    (runPostBoot cfg spec i m).1.scroll = m.scroll := by
  unfold runPostBoot
  cases spec.boot with
  | noBoot => exact runCommit_scroll cfg spec i none m
  | ok h => exact runCommit_scroll cfg spec i _ m
  | throws => rfl

/-- The start mutation keeps the ledger within the bound. -/
theorem startMutate_scroll (cfg : RouterConfig) (i : Nat) (m : MState)
    (h : m.scroll.length ≤ 50) : (startMutate cfg i m).scroll.length ≤ 50 := by
  unfold startMutate
  dsimp only
  split
  · exact recordScroll_length _ _ _ h
  · exact h

/-- The start segment keeps the ledger within the bound. -/
theorem runStart_scroll (cfg : RouterConfig) (spec : NavSpec) (i : Nat) (m : MState)
    (h : m.scroll.length ≤ 50) : (runStart cfg spec i m).1.scroll.length ≤ 50 := by
  unfold runStart
  split
  · exact h
  · split
    · exact h
    · exact h
    · split
      · exact h
      · dsimp only
        split
        · exact startMutate_scroll cfg i m h
        · rw [runAfterUnboot_scroll]
          exact startMutate_scroll cfg i m h

/-- Every scheduler turn keeps the ledger within the bound. -/
theorem sysStep_scroll (cfg : RouterConfig) (specs : Nat → NavSpec) (st : Sys) (k : Nat)
    (h : st.m.scroll.length ≤ 50) : (sysStep cfg specs st k).m.scroll.length ≤ 50 := by
  unfold sysStep
  cases hph : st.phases k with
  | done => exact h
  | start => exact runStart_scroll cfg (specs k) k st.m h
  | postUnboot =>
    rw [applyStep_m, runAfterUnboot_scroll]
    exact h
  | postBoot =>
    rw [applyStep_m, runPostBoot_scroll]
    exact h

/-- Claim C9: the scroll ledger never holds more than 50 entries — after
any schedule of navigations the ledger size is at most 50 — a single
ledger write preserves the bound, and when an insertion of a fresh path
would exceed the bound the oldest-inserted entry (the head) is evicted
first while an existing path is updated in place (FIFO by insertion order,
not by last access). -/
theorem scroll_ledger_bounded :
    (∀ (cfg : RouterConfig) (specs : Nat → NavSpec) (t : List Nat),
      (runTrace cfg specs t).m.scroll.length ≤ 50) ∧
    (∀ (l : List (List Char × (Nat × Nat))) (k : List Char) (v : Nat × Nat),
      l.length ≤ 50 → (recordScroll l k v).length ≤ 50) ∧
    (∀ (l : List (List Char × (Nat × Nat))) (k : List Char) (v : Nat × Nat),
      l.length = 50 → (∀ e ∈ l, e.1 ≠ k) →
      recordScroll l k v = l.drop 1 ++ [(k, v)]) ∧
    (∀ (l : List (List Char × (Nat × Nat))) (k : List Char) (v : Nat × Nat),
      l.length ≤ 50 → l.any (fun e => decide (e.1 = k)) = true →
      recordScroll l k v = l.map (fun e => if e.1 = k then (k, v) else e)) := by
  refine ⟨?_, recordScroll_length, recordScroll_evicts, recordScroll_update⟩
  intro cfg specs t
  have : ∀ (u : List Nat) (st : Sys), st.m.scroll.length ≤ 50 →
      (runFrom cfg specs st u).m.scroll.length ≤ 50 := by
    intro u
    induction u with
    | nil => intro st h; exact h
    | cons k u ih =>
      intro st h
      exact ih (sysStep cfg specs st k) (sysStep_scroll cfg specs st k h)
  exact this t initSys (by simp [initSys, initMState])

/-- Claim C9 (witness): a full 50-entry ledger receiving a fresh path
evicts its oldest entry. -/
theorem scroll_ledger_bounded_witness :
    ((List.range 50).map (fun n => ([Char.ofNat (65 + n)], (n, n)))).length = 50 ∧
      recordScroll ((List.range 50).map (fun n => ([Char.ofNat (65 + n)], (n, n))))
          "new".toList (7, 9) =
        ((List.range 50).map (fun n => ([Char.ofNat (65 + n)], (n, n)))).drop 1 ++
          [("new".toList, (7, 9))] :=
  ⟨by decide,
    scroll_ledger_bounded.2.2.1
      ((List.range 50).map (fun n => ([Char.ofNat (65 + n)], (n, n))))
      "new".toList (7, 9) (by decide) (by decide)⟩

/-! ### Query merging (claim C8) -/

/-- A matching head entry contributes its value. -/
theorem spGetAll_cons_pos (k : List Char) (e : List Char × List Char)
    (X : List (List Char × List Char)) (h : e.1 = k) :
    spGetAll k (e :: X) = e.2 :: spGetAll k X := by
  simp [spGetAll, List.filter_cons, h]

/-- A non-matching head entry contributes nothing. -/
theorem spGetAll_cons_neg (k : List Char) (e : List Char × List Char)
    (X : List (List Char × List Char)) (h : ¬e.1 = k) :
    spGetAll k (e :: X) = spGetAll k X := by
  simp [spGetAll, List.filter_cons, h]

/-- Deleting another name leaves this name's values unchanged. -/
theorem spGetAll_delete_ne (k k2 : List Char) (hne : k2 ≠ k) :
    ∀ ps : List (List Char × List Char), spGetAll k (spDelete k2 ps) = spGetAll k ps
  | [] => rfl
  | e :: ps => by
    by_cases h2 : e.1 = k2
    · rw [show spDelete k2 (e :: ps) = spDelete k2 ps by simp [spDelete, h2]]
      rw [spGetAll_delete_ne k k2 hne ps, spGetAll_cons_neg k e ps (by rw [h2]; exact hne)]
    · rw [show spDelete k2 (e :: ps) = e :: spDelete k2 ps by simp [spDelete, h2]]
      by_cases hek : e.1 = k
      · rw [spGetAll_cons_pos k e _ hek, spGetAll_cons_pos k e ps hek,
          spGetAll_delete_ne k k2 hne ps]
      · rw [spGetAll_cons_neg k e _ hek, spGetAll_cons_neg k e ps hek]
        exact spGetAll_delete_ne k k2 hne ps

/-- Deleting a name removes all its values. -/
theorem spGetAll_delete_self (k : List Char) :
    ∀ ps : List (List Char × List Char), spGetAll k (spDelete k ps) = []
  | [] => rfl
  | e :: ps => by
    by_cases h2 : e.1 = k
    · rw [show spDelete k (e :: ps) = spDelete k ps by simp [spDelete, h2]]
      exact spGetAll_delete_self k ps
    · rw [show spDelete k (e :: ps) = e :: spDelete k ps by simp [spDelete, h2]]
      rw [spGetAll_cons_neg k e _ h2]
      exact spGetAll_delete_self k ps

/-- Setting another name leaves this name's values unchanged. -/
theorem spGetAll_set_ne (k k2 v : List Char) (hne : k2 ≠ k) :
    ∀ ps : List (List Char × List Char), spGetAll k (spSet k2 v ps) = spGetAll k ps
  | [] => by
    rw [show spSet k2 v [] = [(k2, v)] from rfl]
    rw [spGetAll_cons_neg k (k2, v) [] hne]
  | e :: ps => by
    by_cases h2 : e.1 = k2
    · rw [show spSet k2 v (e :: ps) = (k2, v) :: spDelete k2 ps by simp [spSet, h2]]
      rw [spGetAll_cons_neg k (k2, v) _ hne]
      rw [spGetAll_delete_ne k k2 hne ps]
      rw [spGetAll_cons_neg k e ps (by rw [h2]; exact hne)]
    · rw [show spSet k2 v (e :: ps) = e :: spSet k2 v ps by simp [spSet, h2]]
      by_cases hek : e.1 = k
      · rw [spGetAll_cons_pos k e _ hek, spGetAll_cons_pos k e ps hek,
          spGetAll_set_ne k k2 v hne ps]
      · rw [spGetAll_cons_neg k e _ hek, spGetAll_cons_neg k e ps hek]
        exact spGetAll_set_ne k k2 v hne ps

/-- Setting a name makes it carry exactly the one new value. -/
theorem spGetAll_set_self (k v : List Char) :
    ∀ ps : List (List Char × List Char), spGetAll k (spSet k v ps) = [v]
  | [] => by
    rw [show spSet k v [] = [(k, v)] from rfl]
    rw [spGetAll_cons_pos k (k, v) [] rfl]
    rfl
  | e :: ps => by
    by_cases h2 : e.1 = k
    · rw [show spSet k v (e :: ps) = (k, v) :: spDelete k ps by simp [spSet, h2]]
      rw [spGetAll_cons_pos k (k, v) _ rfl, spGetAll_delete_self k ps]
    · rw [show spSet k v (e :: ps) = e :: spSet k v ps by simp [spSet, h2]]
      rw [spGetAll_cons_neg k e _ h2]
      exact spGetAll_set_self k v ps

/-- One patch-loop step. -/
theorem applyPatch_cons (ps : List (List Char × List Char))
    (kv : List Char × Option (List Char)) (patch : List (List Char × Option (List Char))) :
    applyPatch ps (kv :: patch) =
      applyPatch
        (match kv.2 with
         | none => spDelete kv.1 ps
         | some v => if v = [] then spDelete kv.1 ps else spSet kv.1 v ps) patch := rfl

/-- Names not mentioned in the patch keep all their values. -/
theorem applyPatch_unmentioned :
    ∀ (patch : List (List Char × Option (List Char)))
      (ps : List (List Char × List Char)) (k : List Char),
      (∀ kv ∈ patch, kv.1 ≠ k) →
      spGetAll k (applyPatch ps patch) = spGetAll k ps
  | [], _, _, _ => rfl
  | kv :: patch, ps, k, h => by
    have hk : kv.1 ≠ k := h kv (List.mem_cons_self _ _)
    have hrest : ∀ kv2 ∈ patch, kv2.1 ≠ k := fun kv2 hm => h kv2 (List.mem_cons_of_mem _ hm)
    rw [applyPatch_cons]
    cases hv : kv.2 with
    | none =>
      dsimp only
      rw [applyPatch_unmentioned patch _ k hrest]
      exact spGetAll_delete_ne k kv.1 hk ps
    | some v =>
      dsimp only
      by_cases hve : v = []
      · rw [if_pos hve, applyPatch_unmentioned patch _ k hrest]
        exact spGetAll_delete_ne k kv.1 hk ps
      · rw [if_neg hve, applyPatch_unmentioned patch _ k hrest]
        exact spGetAll_set_ne k kv.1 v hk ps

/-- A name patched to null/undefined or the empty string ends up absent
(assuming the patch mentions each name once, as a JS object does). -/
theorem applyPatch_removes :
    ∀ (patch : List (List Char × Option (List Char)))
      (ps : List (List Char × List Char)) (k : List Char),
      (patch.map Prod.fst).Nodup →
      ((k, none) ∈ patch ∨ (k, some []) ∈ patch) →
      spGetAll k (applyPatch ps patch) = []
  | [], _, _, _, hmem => by rcases hmem with h | h <;> simp at h
  | kv :: patch, ps, k, hnd, hmem => by
    have hnd2 : (patch.map Prod.fst).Nodup := (List.nodup_cons.mp hnd).2
    have hknotin : kv.1 ∉ patch.map Prod.fst := (List.nodup_cons.mp hnd).1
    by_cases hcur : kv = ((k, none) : List Char × Option (List Char)) ∨
        kv = ((k, some []) : List Char × Option (List Char))
    · have hk1 : kv.1 = k := by rcases hcur with h | h <;> simp [h]
      have hdel :
          (match kv.2 with
           | none => spDelete kv.1 ps
           | some v => if v = [] then spDelete kv.1 ps else spSet kv.1 v ps) =
            spDelete k ps := by
        rcases hcur with h | h <;> simp [h]
      rw [applyPatch_cons, hdel]
      rw [applyPatch_unmentioned patch _ k (by
        intro kv2 hm2 hkeq
        exact hknotin (hk1 ▸ hkeq ▸ List.mem_map_of_mem Prod.fst hm2))]
      exact spGetAll_delete_self k ps
    · have hmem2 : (k, none) ∈ patch ∨ (k, some []) ∈ patch := by
        rcases hmem with h | h
        · rcases List.mem_cons.mp h with h2 | h2
          · exact absurd (Or.inl h2.symm) hcur
          · exact Or.inl h2
        · rcases List.mem_cons.mp h with h2 | h2
          · exact absurd (Or.inr h2.symm) hcur
          · exact Or.inr h2
      rw [applyPatch_cons]
      exact applyPatch_removes patch _ k hnd2 hmem2

/-- A name patched to a nonempty value ends up carrying exactly that value
(assuming the patch mentions each name once, as a JS object does). -/
theorem applyPatch_sets :
    ∀ (patch : List (List Char × Option (List Char)))
      (ps : List (List Char × List Char)) (k v : List Char),
      (patch.map Prod.fst).Nodup →
      (k, some v) ∈ patch → v ≠ [] →
      spGetAll k (applyPatch ps patch) = [v]
  | [], _, _, _, _, hmem, _ => by simp at hmem
  | kv :: patch, ps, k, v, hnd, hmem, hve => by
    have hnd2 : (patch.map Prod.fst).Nodup := (List.nodup_cons.mp hnd).2
    have hknotin : kv.1 ∉ patch.map Prod.fst := (List.nodup_cons.mp hnd).1
    by_cases hcur : kv = ((k, some v) : List Char × Option (List Char))
    · rw [applyPatch_cons]
      have hstep :
          (match kv.2 with
           | none => spDelete kv.1 ps
           | some v2 => if v2 = [] then spDelete kv.1 ps else spSet kv.1 v2 ps) =
            spSet k v ps := by
        simp [hcur, hve]
      rw [hstep]
      rw [applyPatch_unmentioned patch _ k (by
        intro kv2 hm2 hkeq
        apply hknotin
        rw [show kv.1 = k by simp [hcur]]
        exact hkeq ▸ List.mem_map_of_mem Prod.fst hm2)]
      exact spGetAll_set_self k v ps
    · have hmem2 : (k, some v) ∈ patch := by
        rcases List.mem_cons.mp hmem with h2 | h2
        · exact absurd h2.symm hcur
        · exact h2
      rw [applyPatch_cons]
      exact applyPatch_sets patch _ k v hnd2 hmem2 hve

/-- Claim C8: `navigateQuery` merges the patch into the current query —
every name mapped to null/undefined (`none`) or the empty string is
removed, every other name is set to its (string-coerced) value, and names
not mentioned keep all their current values — then re-navigates to the
current path (path preserved) with the merged, serialized query, using
replace semantics by default.  The spec scenario holds concretely:
patching `tab=posts` onto `/search` with no query yields `?tab=posts`,
and patching `tab` to null afterwards returns to the empty query. -/
theorem navigateQuery_correct :
    (∀ (bp lp : List Char) (cur : NavState)
        (patch : List (List Char × Option (List Char))) (ro : Option Bool),
      (navigateQuery bp lp cur patch ro).search =
        (let s := spToString (applyPatch (parseSearch (dropQM cur.search)) patch)
         if s = [] then [] else '?' :: s)) ∧
    (∀ (ps : List (List Char × List Char)) (patch : List (List Char × Option (List Char)))
        (k : List Char), (∀ kv ∈ patch, kv.1 ≠ k) →
      spGetAll k (applyPatch ps patch) = spGetAll k ps) ∧
    (∀ (ps : List (List Char × List Char)) (patch : List (List Char × Option (List Char)))
        (k : List Char), (patch.map Prod.fst).Nodup →
      ((k, none) ∈ patch ∨ (k, some []) ∈ patch) →
      spGetAll k (applyPatch ps patch) = []) ∧
    (∀ (ps : List (List Char × List Char)) (patch : List (List Char × Option (List Char)))
        (k v : List Char), (patch.map Prod.fst).Nodup →
      (k, some v) ∈ patch → v ≠ [] →
      spGetAll k (applyPatch ps patch) = [v]) ∧
    (∀ (bp lp : List Char) (cur : NavState)
        (patch : List (List Char × Option (List Char))) (ro : Option Bool) (p : List Char),
      cur.path = some p → (navigateQuery bp lp cur patch ro).path = p) ∧
    (∀ (bp lp : List Char) (cur : NavState)
        (patch : List (List Char × Option (List Char))),
      (navigateQuery bp lp cur patch none).replace = true) ∧
    (navigateQuery [] "/search".toList
        { viewKey := some "search".toList, unboot := none,
          path := some "/search".toList, search := [] }
        [("tab".toList, some "posts".toList)] none =
      { path := "/search".toList, search := "?tab=posts".toList, replace := true }) ∧
    (navigateQuery [] "/search".toList
        { viewKey := some "search".toList, unboot := none,
          path := some "/search".toList, search := "?tab=posts".toList }
        [("tab".toList, none)] none =
      { path := "/search".toList, search := [], replace := true }) := by
  refine ⟨fun _ _ _ _ _ => rfl,
    fun ps patch k h => applyPatch_unmentioned patch ps k h,
    fun ps patch k hnd hm => applyPatch_removes patch ps k hnd hm,
    fun ps patch k v hnd hm hv => applyPatch_sets patch ps k v hnd hm hv,
    ?_, fun _ _ _ _ => rfl, by decide, by decide⟩
  intro bp lp cur patch ro p hp
  unfold navigateQuery
  dsimp only
  rw [hp]

/-- Claim C8 (witness): the merge lemmas applied to a concrete query. -/
theorem navigateQuery_correct_witness :
    ((["page".toList, "tab".toList] : List (List Char)) ≠ [] ∧
        ([("page".toList, some "2".toList), ("tab".toList, none)].map Prod.fst).Nodup) ∧
      spGetAll "q".toList
          (applyPatch [("q".toList, "hello".toList), ("tab".toList, "posts".toList)]
            [("page".toList, some "2".toList), ("tab".toList, none)]) =
        ["hello".toList] ∧
      spGetAll "tab".toList
          (applyPatch [("q".toList, "hello".toList), ("tab".toList, "posts".toList)]
            [("page".toList, some "2".toList), ("tab".toList, none)]) = [] ∧
      spGetAll "page".toList
          (applyPatch [("q".toList, "hello".toList), ("tab".toList, "posts".toList)]
            [("page".toList, some "2".toList), ("tab".toList, none)]) = ["2".toList] :=
  ⟨⟨by decide, by decide⟩,
    navigateQuery_correct.2.1 [("q".toList, "hello".toList), ("tab".toList, "posts".toList)]
      [("page".toList, some "2".toList), ("tab".toList, none)] "q".toList (by decide),
    navigateQuery_correct.2.2.1 [("q".toList, "hello".toList), ("tab".toList, "posts".toList)]
      [("page".toList, some "2".toList), ("tab".toList, none)] "tab".toList (by decide)
      (Or.inl (by decide)),
    navigateQuery_correct.2.2.2.1
      [("q".toList, "hello".toList), ("tab".toList, "posts".toList)]
      [("page".toList, some "2".toList), ("tab".toList, none)] "page".toList "2".toList
      (by decide) (by decide) (by decide)⟩

end Router
